import Mathlib

/-!
Single-server queue simulation (`hemanth.cpp`).

A shallow embedding of the circular waiting-line buffer and of the
discrete-event loop of `main`, together with the properties proved about them.

Conventions of the embedding
* C `double` values are exact rationals (`ℚ`): rounding is not modelled.
  A `double` division whose divisor is zero has no rational value and is `none`.
* The C `int` fields `front`, `rear`, `count`, `queue_length`,
  `max_queue_length` are natural numbers: the code never makes one of them
  negative (every decrement is guarded) and none exceeds `MAX_QUEUE`.
* The C `int` counter `customers_served` is an integer kept in the 32-bit
  range: `customers_served++` wraps from `2^31 - 1` to `-2^31`.
* `exit(1)` inside `enqueue` / `dequeue` is an `Except.error`.
* The pseudo-random generator is a stream `draws : ℕ → ℚ`; `draws k` is the
  value of `-log(uniform_rand())` at the `k`-th call, and the state records how
  many calls have been made.
-/

namespace QueueSim

/-! ## Constants -/

/-- The constant `#define INF 1e30`. -/
def INF : ℚ := 10 ^ 30

/-- The constant `#define MAX_QUEUE 100000`. -/
def MAX_QUEUE : ℕ := 100000

/-! ## Random number helpers -/

/-- The function `exp_rand(rate)`: `-log(uniform_rand()) / rate`, where the
numerator `-log(uniform_rand())` is the value `neg_log_u` supplied by the
generator stream. -/
def exp_rand (neg_log_u : ℚ) (rate : ℚ) : ℚ := neg_log_u / rate

/-! ## Circular queue of arrival times -/

/-- The struct `Queue`: the array `data[MAX_QUEUE]` is a function of the index. -/
structure Queue where
  data : ℕ → ℚ
  front : ℕ
  rear : ℕ
  count : ℕ

/-- The two ways `enqueue` / `dequeue` leave the program through `exit(1)`. -/
inductive Fault where
  | overflow
  | underflow
  deriving DecidableEq, Repr

/-- The function `init_queue`: resets the three indices, leaves `data` as it is. -/
def init_queue (q : Queue) : Queue :=
  { q with front := 0, rear := 0, count := 0 }

/-- The function `is_empty`. -/
def is_empty (q : Queue) : Bool := q.count == 0

/-- The function `is_full`. -/
def is_full (q : Queue) : Bool := q.count == MAX_QUEUE

/-- The function `enqueue`: overflow exit when full, otherwise write at `rear`,
advance `rear` modulo `MAX_QUEUE`, increment `count`. -/
def enqueue (q : Queue) (value : ℚ) : Except Fault Queue :=
  if is_full q then
    .error .overflow
  else
    .ok { data := Function.update q.data q.rear value
          front := q.front
          rear := (q.rear + 1) % MAX_QUEUE
          count := q.count + 1 }

/-- The function `dequeue`: underflow exit when empty, otherwise read at `front`,
advance `front` modulo `MAX_QUEUE`, decrement `count`; returns the value read
and the updated queue. -/
def dequeue (q : Queue) : Except Fault (ℚ × Queue) :=
  if is_empty q then
    .error .underflow
  else
    let value := q.data q.front
    .ok (value, { data := q.data
                  front := (q.front + 1) % MAX_QUEUE
                  rear := q.rear
                  count := q.count - 1 })

/-- One call made on the queue. -/
inductive QueueOp where
  | enq (value : ℚ)
  | deq

/-- Runs a sequence of calls on the circular buffer, collecting the values
returned by the `dequeue` calls; the first overflow or underflow ends the run. -/
def run_ops : List QueueOp → Queue → Except Fault (Queue × List ℚ)
  | [], q => .ok (q, [])
  | .enq v :: ops, q =>
    match enqueue q v with
    | .error f => .error f
    | .ok q1 => run_ops ops q1
  | .deq :: ops, q =>
    match dequeue q with
    | .error f => .error f
    | .ok (v, q1) =>
      match run_ops ops q1 with
      | .error f => .error f
      | .ok (q2, outs) => .ok (q2, v :: outs)

/-- The values held by the circular buffer, head first: the `count` cells
starting at `front`, indices taken modulo `MAX_QUEUE`. -/
def Queue.contents (q : Queue) : List ℚ :=
  (List.range q.count).map (fun i => q.data ((q.front + i) % MAX_QUEUE))

/-- Indices of a queue reachable from `init_queue`: `front` inside the array,
at most `MAX_QUEUE` elements, `rear` one past the last element (cyclically). -/
def Queue.WF (q : Queue) : Prop :=
  q.front < MAX_QUEUE ∧ q.count ≤ MAX_QUEUE ∧ q.rear = (q.front + q.count) % MAX_QUEUE

/-- The list queue of the specification: `enqueue` appends at the tail,
`dequeue` removes the head; `none` when a `dequeue` finds the list empty or an
`enqueue` finds `MAX_QUEUE` elements. Returns the final list and the values
dequeued, in order. -/
def list_queue_run : List QueueOp → List ℚ → Option (List ℚ × List ℚ)
  | [], l => some (l, [])
  | .enq v :: ops, l =>
    if l.length = MAX_QUEUE then none else list_queue_run ops (l ++ [v])
  | .deq :: ops, l =>
    match l with
    | [] => none
    | a :: rest =>
      match list_queue_run ops rest with
      | none => none
      | some (l1, outs) => some (l1, a :: outs)

/-! ## Main simulation -/

/-- The three values read by `scanf` at the start of `main`. -/
structure Config where
  arrival_rate : ℚ
  service_rate : ℚ
  total_sim_time : ℚ

/-- The input check of `main`:
`arrival_rate <= 0 || service_rate <= 0 || total_sim_time <= 0`. -/
def input_rejected (cfg : Config) : Bool :=
  decide (cfg.arrival_rate ≤ 0 ∨ cfg.service_rate ≤ 0 ∨ cfg.total_sim_time ≤ 0)

/-- A valid configuration: all three parameters positive. -/
def Config.valid (cfg : Config) : Prop :=
  0 < cfg.arrival_rate ∧ 0 < cfg.service_rate ∧ 0 < cfg.total_sim_time

/-- The value a 32-bit `int` holds after an arithmetic result `x`: `x` reduced
modulo `2^32` into the range from `-2^31` to `2^31 - 1`. -/
def wrap32 (x : ℤ) : ℤ := (x + 2147483648) % 4294967296 - 2147483648

/-- The local variables of `main` that live across loop iterations, and the
number of generator calls made so far. -/
structure SimState where
  clock_time : ℚ
  next_arrival : ℚ
  next_departure : ℚ
  server_busy : Bool
  queue_length : ℕ
  max_queue_length : ℕ
  q : Queue
  last_event_time : ℚ
  area_num_in_queue : ℚ
  busy_time : ℚ
  total_wait_time : ℚ
  customers_served : ℤ
  draws_used : ℕ

/-- The state of `main` when the loop is first entered; `q0` is the
uninitialised stack variable `Queue q` handed to `init_queue`. -/
def init_state (cfg : Config) (draws : ℕ → ℚ) (q0 : Queue) : SimState :=
  { clock_time := 0
    next_arrival := exp_rand (draws 0) cfg.arrival_rate
    next_departure := INF
    server_busy := false
    queue_length := 0
    max_queue_length := 0
    q := init_queue q0
    last_event_time := 0
    area_num_in_queue := 0
    busy_time := 0
    total_wait_time := 0
    customers_served := 0
    draws_used := 1 }

/-- What one execution of the loop body does: falls through to the next loop
test, leaves the loop through `break`, or leaves the program through `exit(1)`. -/
inductive Outcome where
  | next (s : SimState)
  | stop (s : SimState)
  | fault (f : Fault)

/-- The state an iteration produces, if it produces one. -/
def Outcome.state? : Outcome → Option SimState
  | .next s => some s
  | .stop s => some s
  | .fault _ => none

/-- The event-selection test of the loop:
`next_arrival <= next_departure && next_arrival <= total_sim_time`. -/
def arrival_selected (cfg : Config) (s : SimState) : Bool :=
  decide (s.next_arrival ≤ s.next_departure ∧ s.next_arrival ≤ cfg.total_sim_time)

/-- The body of the `while` loop of `main`. -/
def loop_body (cfg : Config) (draws : ℕ → ℚ) (s : SimState) : Outcome :=
  if arrival_selected cfg s then
    -- process arrival
    let time_advance := s.next_arrival - s.clock_time
    let area := s.area_num_in_queue + (s.queue_length : ℚ) * time_advance
    let busy := if s.server_busy then s.busy_time + time_advance else s.busy_time
    let clock := s.next_arrival
    if !s.server_busy then
      let service_time := exp_rand (draws s.draws_used) cfg.service_rate
      .next { s with
        area_num_in_queue := area
        busy_time := busy
        clock_time := clock
        last_event_time := clock
        server_busy := true
        next_departure := clock + service_time
        next_arrival := clock + exp_rand (draws (s.draws_used + 1)) cfg.arrival_rate
        draws_used := s.draws_used + 2 }
    else
      match enqueue s.q clock with
      | .error f => .fault f
      | .ok q1 =>
        let queue_length := s.queue_length + 1
        .next { s with
          area_num_in_queue := area
          busy_time := busy
          clock_time := clock
          last_event_time := clock
          q := q1
          queue_length := queue_length
          max_queue_length :=
            if queue_length > s.max_queue_length then queue_length else s.max_queue_length
          next_arrival := clock + exp_rand (draws s.draws_used) cfg.arrival_rate
          draws_used := s.draws_used + 1 }
  else
    -- process departure
    if s.next_departure = INF then
      .stop s
    else if s.next_departure > cfg.total_sim_time then
      let time_advance := cfg.total_sim_time - s.clock_time
      .stop { s with
        area_num_in_queue := s.area_num_in_queue + (s.queue_length : ℚ) * time_advance
        busy_time := if s.server_busy then s.busy_time + time_advance else s.busy_time
        clock_time := cfg.total_sim_time }
    else
      let time_advance := s.next_departure - s.clock_time
      let area := s.area_num_in_queue + (s.queue_length : ℚ) * time_advance
      let busy := if s.server_busy then s.busy_time + time_advance else s.busy_time
      let clock := s.next_departure
      let served := wrap32 (s.customers_served + 1)
      if s.queue_length > 0 then
        match dequeue s.q with
        | .error f => .fault f
        | .ok (arrival_time, q1) =>
          let wait := clock - arrival_time
          let service_time := exp_rand (draws s.draws_used) cfg.service_rate
          .next { s with
            area_num_in_queue := area
            busy_time := busy
            clock_time := clock
            last_event_time := clock
            customers_served := served
            q := q1
            queue_length := s.queue_length - 1
            total_wait_time := s.total_wait_time + wait
            next_departure := clock + service_time
            draws_used := s.draws_used + 1 }
      else
        .next { s with
          area_num_in_queue := area
          busy_time := busy
          clock_time := clock
          last_event_time := clock
          customers_served := served
          server_busy := false
          next_departure := INF }

/-- The `while (clock_time < total_sim_time)` loop, with a bound on the number
of iterations: `none` when the bound is used up before the loop ends,
otherwise the state at loop exit or the fault that ended the program. -/
def sim_loop (cfg : Config) (draws : ℕ → ℚ) : ℕ → SimState → Option (Except Fault SimState)
  | 0, _ => none
  | fuel + 1, s =>
    if s.clock_time < cfg.total_sim_time then
      match loop_body cfg draws s with
      | .next s1 => sim_loop cfg draws fuel s1
      | .stop s1 => some (.ok s1)
      | .fault f => some (.error f)
    else
      some (.ok s)

/-- A `double` division: no value when the divisor is zero. -/
def fdiv (a b : ℚ) : Option ℚ := if b = 0 then none else some (a / b)

/-- The figures printed under "Simulation Results". -/
structure Report where
  sim_duration : ℚ
  customers_served : ℤ
  max_queue_length : ℕ
  avg_wait_time : ℚ
  avg_queue_length : Option ℚ
  utilization : Option ℚ
  throughput : Option ℚ

/-- The "Final statistics" block of `main`. -/
def final_statistics (s : SimState) : Report :=
  let sim_duration := s.clock_time
  { sim_duration := sim_duration
    customers_served := s.customers_served
    max_queue_length := s.max_queue_length
    avg_wait_time :=
      if s.customers_served > 0 then s.total_wait_time / (s.customers_served : ℚ) else 0
    avg_queue_length := fdiv s.area_num_in_queue sim_duration
    utilization := fdiv s.busy_time sim_duration
    throughput := fdiv (s.customers_served : ℚ) sim_duration }

/-- How `main` ends. -/
inductive Exit where
  | rejected
  | fault (f : Fault)
  | completed (r : Report)

/-- The function `main`: input check, loop, final statistics; `none` when the
iteration bound is used up. -/
def main (cfg : Config) (draws : ℕ → ℚ) (q0 : Queue) (fuel : ℕ) : Option Exit :=
  if input_rejected cfg then
    some .rejected
  else
    match sim_loop cfg draws fuel (init_state cfg draws q0) with
    | none => none
    | some (.error f) => some (.fault f)
    | some (.ok s) => some (.completed (final_statistics s))

/-! ## Reachable states and the record of a run -/

/-- The states of a run. `Reach cfg draws q0 hist running s` holds when `s` is
the state after the iterations whose starting states are listed, oldest first,
in `hist`; `running` tells whether control is back at the loop test (`true`)
or the loop has been left through `break` (`false`). -/
inductive Reach (cfg : Config) (draws : ℕ → ℚ) (q0 : Queue) :
    List SimState → Bool → SimState → Prop
  | init : Reach cfg draws q0 [] true (init_state cfg draws q0)
  | next (hist : List SimState) (s s1 : SimState) :
      Reach cfg draws q0 hist true s →
      s.clock_time < cfg.total_sim_time →
      loop_body cfg draws s = .next s1 →
      Reach cfg draws q0 (hist ++ [s]) true s1
  | stop (hist : List SimState) (s s1 : SimState) :
      Reach cfg draws q0 hist true s →
      s.clock_time < cfg.total_sim_time →
      loop_body cfg draws s = .stop s1 →
      Reach cfg draws q0 (hist ++ [s]) false s1

/-- The time-weighted sum of `f` along consecutive states: each state's value
of `f` times the clock advance to the state that follows it. -/
def riemann_sum (f : SimState → ℚ) : List SimState → ℚ
  | a :: b :: rest => f a * (b.clock_time - a.clock_time) + riemann_sum f (b :: rest)
  | _ => 0

/-- The iteration started in `s` processes a departure (the else branch, past
both `break` tests). -/
def departure_processed (cfg : Config) (s : SimState) : Bool :=
  !arrival_selected cfg s && decide (s.next_departure ≠ INF) &&
    decide (¬ s.next_departure > cfg.total_sim_time)

/-- Number of departures processed by the iterations listed in `hist`. -/
def departures_processed (cfg : Config) (hist : List SimState) : ℕ :=
  (hist.filter (departure_processed cfg)).length

/-- Number of arrivals processed by the iterations listed in `hist`. -/
def arrivals_processed (cfg : Config) (hist : List SimState) : ℕ :=
  (hist.filter (arrival_selected cfg)).length

/-- Arrival timestamps of the customers, in order of arrival: the clock value
set by each arrival iteration. -/
def arrival_times (cfg : Config) (hist : List SimState) : List ℚ :=
  (hist.filter (arrival_selected cfg)).map (fun s => s.next_arrival)

/-- Times at which customers started service, in order: the time of an arrival
that found the server idle, or of a departure that took a customer out of the
waiting line. -/
def service_starts (cfg : Config) (hist : List SimState) : List ℚ :=
  hist.filterMap (fun s =>
    if arrival_selected cfg s then
      if s.server_busy then none else some s.next_arrival
    else if departure_processed cfg s && decide (s.queue_length > 0) then
      some s.next_departure
    else none)

/-- The wait of each customer who has started service, in order of arrival
(first in, first out: the `i`-th customer to start service is the `i`-th to
arrive): start of service minus the customer's own arrival timestamp. -/
def customer_waits (cfg : Config) (hist : List SimState) : List ℚ :=
  List.zipWith (fun start arrival => start - arrival) (service_starts cfg hist)
    (arrival_times cfg hist)

/-! ## Invariants -/

/-- The bookkeeping facts that hold at every state of a run, whatever the
draws: the buffer indices are consistent, `queue_length` mirrors the buffer,
an idle server has nobody waiting and no departure scheduled, arrivals are
conserved, and `customers_served` counts the departures until it wraps. -/
structure StructInv (cfg : Config) (hist : List SimState) (s : SimState) : Prop where
  wf : s.q.WF
  len_eq : s.queue_length = s.q.count
  idle_empty : s.server_busy = false → s.queue_length = 0
  idle_inf : s.server_busy = false → s.next_departure = INF
  conserve : arrivals_processed cfg hist =
    departures_processed cfg hist + s.queue_length + (if s.server_busy then 1 else 0)
  served_eq : departures_processed cfg hist < 2147483648 →
    s.customers_served = (departures_processed cfg hist : ℤ)

/-- The timing facts that hold at every state of a run with positive rates,
positive horizon and positive draws. -/
structure TimeInv (cfg : Config) (s : SimState) : Prop where
  clock_nonneg : 0 ≤ s.clock_time
  clock_le : s.clock_time ≤ cfg.total_sim_time
  clock_lt_arrival : s.clock_time < s.next_arrival
  busy_departure : s.server_busy = true → s.clock_time ≤ s.next_departure
  busy_nonneg : 0 ≤ s.busy_time
  busy_le : s.busy_time ≤ s.clock_time

/-- The record kept about waits: the arrival timestamps of the customers who
have started service (`P`) followed by the timestamps still in the buffer make
up all arrivals, `total_wait_time` is the sum of start minus arrival over the
customers who have started service, and those are the departed customers plus
the one in service. -/
def WaitInv (cfg : Config) (hist : List SimState) (s : SimState) : Prop :=
  ∃ P : List ℚ,
    arrival_times cfg hist = P ++ s.q.contents ∧
    (service_starts cfg hist).length = P.length ∧
    s.total_wait_time = (List.zipWith (fun a b => a - b) (service_starts cfg hist) P).sum ∧
    (service_starts cfg hist).length =
      departures_processed cfg hist + (if s.server_busy then 1 else 0)

/-! ## Concrete runs -/

/-- An arbitrary content for the uninitialised queue variable. -/
def demo_q0 : Queue := { data := fun _ => 0, front := 0, rear := 0, count := 0 }

/-- Five calls on the queue. -/
def demo_ops : List QueueOp := [.enq 5, .enq 7, .deq, .enq 9, .deq]

/-- The queue after `demo_ops`. -/
def demo_q : Queue :=
  { data := Function.update (Function.update (Function.update demo_q0.data 0 5) 1 7) 2 9
    front := 2
    rear := 3
    count := 1 }

/-- Horizon 1 with the first arrival scheduled at time 2. -/
def late_cfg : Config := { arrival_rate := 1, service_rate := 1, total_sim_time := 1 }

/-- Every draw is 2. -/
def late_draws : ℕ → ℚ := fun _ => 2

/-- Horizon 10: one arrival at time 1, served until 3/2, next arrival at 21. -/
def idle_cfg : Config := { arrival_rate := 1, service_rate := 1, total_sim_time := 10 }

/-- Draws 1, 1/2, then 20. -/
def idle_draws : ℕ → ℚ := fun k => if k = 0 then 1 else if k = 1 then 1 / 2 else 20

/-- State of the `idle_cfg` run at the first loop test. -/
def idle_s0 : SimState := init_state idle_cfg idle_draws demo_q0

/-- State of the `idle_cfg` run after the arrival at time 1. -/
def idle_s1 : SimState :=
  { clock_time := 1, next_arrival := 21, next_departure := 3 / 2, server_busy := true
    queue_length := 0, max_queue_length := 0, q := init_queue demo_q0, last_event_time := 1
    area_num_in_queue := 0, busy_time := 0, total_wait_time := 0, customers_served := 0
    draws_used := 3 }

/-- State of the `idle_cfg` run after the departure at time 3/2. -/
def idle_s2 : SimState :=
  { clock_time := 3 / 2, next_arrival := 21, next_departure := INF, server_busy := false
    queue_length := 0, max_queue_length := 0, q := init_queue demo_q0, last_event_time := 3 / 2
    area_num_in_queue := 0, busy_time := 1 / 2, total_wait_time := 0, customers_served := 1
    draws_used := 3 }

/-- Horizon 6: arrivals at times 1 and 2, first service ends at 5. -/
def busy_cfg : Config := { arrival_rate := 1, service_rate := 1, total_sim_time := 6 }

/-- Draws 1, 4, 1, then 100. -/
def busy_draws : ℕ → ℚ :=
  fun k => if k = 0 then 1 else if k = 1 then 4 else if k = 2 then 1 else 100

/-- State of the `busy_cfg` run at the first loop test. -/
def busy_s0 : SimState := init_state busy_cfg busy_draws demo_q0

/-- After the arrival at time 1 (service starts at once, until 5). -/
def busy_s1 : SimState :=
  { clock_time := 1, next_arrival := 2, next_departure := 5, server_busy := true
    queue_length := 0, max_queue_length := 0, q := init_queue demo_q0, last_event_time := 1
    area_num_in_queue := 0, busy_time := 0, total_wait_time := 0, customers_served := 0
    draws_used := 3 }

/-- After the arrival at time 2 (the customer joins the waiting line). -/
def busy_s2 : SimState :=
  { clock_time := 2, next_arrival := 102, next_departure := 5, server_busy := true
    queue_length := 1, max_queue_length := 1
    q := { data := Function.update demo_q0.data 0 2, front := 0, rear := 1, count := 1 }
    last_event_time := 2
    area_num_in_queue := 0, busy_time := 1, total_wait_time := 0, customers_served := 0
    draws_used := 4 }

/-- After the departure at time 5 (the second customer starts service, wait 3). -/
def busy_s3 : SimState :=
  { clock_time := 5, next_arrival := 102, next_departure := 105, server_busy := true
    queue_length := 0, max_queue_length := 1
    q := { data := Function.update demo_q0.data 0 2, front := 1, rear := 1, count := 0 }
    last_event_time := 5
    area_num_in_queue := 3, busy_time := 4, total_wait_time := 3, customers_served := 1
    draws_used := 5 }

/-- After the truncation at the horizon 6. -/
def busy_s4 : SimState :=
  { clock_time := 6, next_arrival := 102, next_departure := 105, server_busy := true
    queue_length := 0, max_queue_length := 1
    q := { data := Function.update demo_q0.data 0 2, front := 1, rear := 1, count := 0 }
    last_event_time := 5
    area_num_in_queue := 3, busy_time := 5, total_wait_time := 3, customers_served := 1
    draws_used := 5 }

/-! ## The uniform variate, and further runs -/

/-- The function `uniform_rand`: `(rand() + 1.0) / (RAND_MAX + 2.0)`, for the
value `r` returned by `rand()`; `RAND_MAX` is the constant of `<stdlib.h>`. -/
def uniform_rand (r RAND_MAX : ℕ) : ℚ := ((r : ℚ) + 1) / ((RAND_MAX : ℚ) + 2)

/-- The expression `-log(u) / rate` of `exp_rand`, over the reals, for the
value `u` returned by `uniform_rand`. -/
noncomputable def exp_rand_real (u rate : ℝ) : ℝ := -Real.log u / rate

/-- What holds of the timestamps in the waiting line: in non-decreasing order
from head to tail, none later than the clock, and a non-negative total wait. -/
structure OrderInv (s : SimState) : Prop where
  sorted : List.Pairwise (fun a b => a ≤ b) s.q.contents
  le_clock : ∀ a ∈ s.q.contents, a ≤ s.clock_time
  wait_nonneg : 0 ≤ s.total_wait_time

/-- Horizon 10; the second arrival is scheduled at time 2, the very time at
which the first service ends. -/
def tie_cfg : Config := { arrival_rate := 1, service_rate := 1, total_sim_time := 10 }

/-- Draws 1, 1, 1, then 5. -/
def tie_draws : ℕ → ℚ := fun k => if k < 3 then 1 else 5

/-- State of the `tie_cfg` run at the first loop test. -/
def tie_s0 : SimState := init_state tie_cfg tie_draws demo_q0

/-- After the arrival at time 1 (service until 2, next arrival at 2). -/
def tie_s1 : SimState :=
  { clock_time := 1, next_arrival := 2, next_departure := 2, server_busy := true
    queue_length := 0, max_queue_length := 0, q := init_queue demo_q0, last_event_time := 1
    area_num_in_queue := 0, busy_time := 0, total_wait_time := 0, customers_served := 0
    draws_used := 3 }

/-- After the arrival at time 2 (the customer joins the waiting line). -/
def tie_s2 : SimState :=
  { clock_time := 2, next_arrival := 7, next_departure := 2, server_busy := true
    queue_length := 1, max_queue_length := 1
    q := { data := Function.update demo_q0.data 0 2, front := 0, rear := 1, count := 1 }
    last_event_time := 2
    area_num_in_queue := 0, busy_time := 1, total_wait_time := 0, customers_served := 0
    draws_used := 4 }

/-- After the departure at time 2: the clock has not moved. -/
def tie_s3 : SimState :=
  { clock_time := 2, next_arrival := 7, next_departure := 7, server_busy := true
    queue_length := 0, max_queue_length := 1
    q := { data := Function.update demo_q0.data 0 2, front := 1, rear := 1, count := 0 }
    last_event_time := 2
    area_num_in_queue := 0, busy_time := 1, total_wait_time := 0, customers_served := 1
    draws_used := 5 }

/-- Rates `2^-46` and `2^-98` and horizon `2^47`, all of them binary
floating-point numbers: with `sentinel_draws` the first arrival is at
`120852863516672` and its service lasts `999999999999999879147136483328`, two
binary floating-point numbers whose sum is `10^30`. -/
def sentinel_cfg : Config :=
  { arrival_rate := 1 / 2 ^ 46, service_rate := 1 / 2 ^ 98, total_sim_time := 2 ^ 47 }

/-- Draws `112553 / 2^16`, `7105427357601001 / 2^51`, then 1. -/
def sentinel_draws : ℕ → ℚ :=
  fun k => if k = 0 then 112553 / 65536
    else if k = 1 then 7105427357601001 / 2251799813685248 else 1

/-- State of the `sentinel_cfg` run at the first loop test. -/
def sentinel_s0 : SimState := init_state sentinel_cfg sentinel_draws demo_q0

/-- After the arrival at time `120852863516672`: the server is busy and the
departure is scheduled at `1e30`. -/
def sentinel_s1 : SimState :=
  { clock_time := 120852863516672, next_arrival := 191221607694336
    next_departure := 10 ^ 30, server_busy := true
    queue_length := 0, max_queue_length := 0, q := init_queue demo_q0
    last_event_time := 120852863516672
    area_num_in_queue := 0, busy_time := 0, total_wait_time := 0, customers_served := 0
    draws_used := 3 }

/-- Rates 1 and 2 and horizon 2147483658: with every draw equal to 1 the
customers arrive at times 1, 2, 3, ... and each is served for 1/2. -/
def overflow_cfg : Config :=
  { arrival_rate := 1, service_rate := 2, total_sim_time := 2147483658 }

/-- Every draw is 1. -/
def overflow_draws : ℕ → ℚ := fun _ => 1

/-- State of the `overflow_cfg` run at the loop test after `k` customers have
arrived and departed: the server is idle. -/
def overflow_idle (k : ℕ) : SimState :=
  { clock_time := if k = 0 then 0 else (k : ℚ) + 1 / 2
    next_arrival := (k : ℚ) + 1
    next_departure := INF
    server_busy := false
    queue_length := 0
    max_queue_length := 0
    q := init_queue demo_q0
    last_event_time := if k = 0 then 0 else (k : ℚ) + 1 / 2
    area_num_in_queue := 0
    busy_time := (k : ℚ) / 2
    total_wait_time := 0
    customers_served := wrap32 (k : ℤ)
    draws_used := 2 * k + 1 }

/-- State of the `overflow_cfg` run after the arrival of customer `k + 1`: the
server is busy until `k + 3/2`. -/
def overflow_busy (k : ℕ) : SimState :=
  { clock_time := (k : ℚ) + 1
    next_arrival := (k : ℚ) + 2
    next_departure := (k : ℚ) + 3 / 2
    server_busy := true
    queue_length := 0
    max_queue_length := 0
    q := init_queue demo_q0
    last_event_time := (k : ℚ) + 1
    area_num_in_queue := 0
    busy_time := (k : ℚ) / 2
    total_wait_time := 0
    customers_served := wrap32 (k : ℤ)
    draws_used := 2 * k + 3 }

/-- The starting states of the first `2 * k` iterations of the `overflow_cfg`
run. -/
def overflow_hist : ℕ → List SimState
  | 0 => []
  | k + 1 => overflow_hist k ++ [overflow_idle k, overflow_busy k]

/-! ## Queue lemmas -/

theorem init_queue_WF (q : Queue) : (init_queue q).WF := by
  simp [Queue.WF, init_queue, MAX_QUEUE]

theorem init_queue_contents (q : Queue) : (init_queue q).contents = [] := by
  simp [Queue.contents, init_queue]

theorem contents_length (q : Queue) : q.contents.length = q.count := by
  simp [Queue.contents]

theorem enqueue_ok_iff (q : Queue) (v : ℚ) :
    (∃ q1, enqueue q v = .ok q1) ↔ q.count ≠ MAX_QUEUE := by
  unfold enqueue is_full
  by_cases h : q.count = MAX_QUEUE <;> simp [h]

/-- A successful `enqueue` on a well-formed queue keeps it well formed and
appends the value to its contents. -/
theorem enqueue_spec (q q1 : Queue) (v : ℚ) (hwf : q.WF) (h : enqueue q v = .ok q1) :
    q1.WF ∧ q1.contents = q.contents ++ [v] ∧ q1.count = q.count + 1 := by
  obtain ⟨hf, hc, hr⟩ := hwf
  unfold enqueue is_full at h
  by_cases hfull : q.count = MAX_QUEUE
  · simp [hfull] at h
  · simp [hfull] at h
    subst h
    have hlt : q.count < MAX_QUEUE := lt_of_le_of_ne hc hfull
    refine ⟨⟨hf, hlt, ?_⟩, ?_, rfl⟩
    · simp only [hr]
      rw [Nat.add_mod, Nat.mod_mod, ← Nat.add_mod, Nat.add_assoc]
    · simp only [Queue.contents, List.range_succ, List.map_append, List.map_cons, List.map_nil]
      congr 1
      · apply List.map_congr_left
        intro i hi
        rw [List.mem_range] at hi
        rw [Function.update_noteq]
        rw [hr]
        intro heq
        -- two distinct offsets below MAX_QUEUE cannot hit the same cell
        have h1 : (q.front + i) % MAX_QUEUE = (q.front + q.count) % MAX_QUEUE := heq
        have h2 : i % MAX_QUEUE = q.count % MAX_QUEUE :=
          Nat.ModEq.add_left_cancel (Nat.ModEq.refl q.front) h1
        rw [Nat.mod_eq_of_lt (lt_trans hi hlt), Nat.mod_eq_of_lt hlt] at h2
        omega
      · rw [← hr, Function.update_same]

/-- A successful `dequeue` returns the head of the contents and leaves the tail. -/
theorem dequeue_spec (q q1 : Queue) (v : ℚ) (hwf : q.WF) (h : dequeue q = .ok (v, q1)) :
    q1.WF ∧ q.contents = v :: q1.contents ∧ q1.count + 1 = q.count := by
  obtain ⟨hf, hc, hr⟩ := hwf
  unfold dequeue is_empty at h
  by_cases hemp : q.count = 0
  · simp [hemp] at h
  · simp [hemp] at h
    obtain ⟨hv, hq⟩ := h
    subst hq
    subst hv
    have hpos : 0 < q.count := Nat.pos_of_ne_zero hemp
    have hmq : 0 < MAX_QUEUE := by decide
    refine ⟨⟨Nat.mod_lt _ hmq, by simp only; omega, ?_⟩, ?_, by simp only; omega⟩
    · simp only [hr]
      rw [Nat.mod_add_mod]
      congr 1
      omega
    · obtain ⟨n, hn⟩ : ∃ n, q.count = n + 1 := ⟨q.count - 1, by omega⟩
      simp only [Queue.contents, hn, Nat.add_sub_cancel]
      rw [List.range_succ_eq_map]
      simp only [List.map_cons, List.map_map, Nat.add_zero, Nat.mod_eq_of_lt hf]
      congr 1
      apply List.map_congr_left
      intro i _
      simp only [Function.comp, Nat.succ_eq_add_one]
      rw [Nat.mod_add_mod]
      congr 2
      omega

/-- The circular buffer and the list queue agree on every sequence of calls,
failures included, when started from matching contents. -/
theorem run_ops_eq_list_queue_run (ops : List QueueOp) :
    ∀ q : Queue, q.WF →
      (match run_ops ops q with
        | .ok (q1, outs) => some (q1.contents, outs)
        | .error _ => none) = list_queue_run ops q.contents := by
  induction ops with
  | nil => intro q _; simp [run_ops, list_queue_run]
  | cons op ops ih =>
    intro q hwf
    cases op with
    | enq v =>
      simp only [run_ops, list_queue_run, contents_length]
      by_cases hfull : q.count = MAX_QUEUE
      · have : enqueue q v = .error .overflow := by simp [enqueue, is_full, hfull]
        simp [this, hfull]
      · obtain ⟨q1, hq1⟩ := (enqueue_ok_iff q v).2 hfull
        obtain ⟨hwf1, hc1, _⟩ := enqueue_spec q q1 v hwf hq1
        simp only [hq1, hfull, if_false]
        rw [← hc1]
        exact ih q1 hwf1
    | deq =>
      simp only [run_ops, list_queue_run]
      by_cases hemp : q.count = 0
      · have h1 : dequeue q = .error .underflow := by simp [dequeue, is_empty, hemp]
        have h2 : q.contents = [] := by simp [Queue.contents, hemp]
        simp [h1, h2]
      · have h1 : dequeue q = .ok (q.data q.front,
            { data := q.data, front := (q.front + 1) % MAX_QUEUE, rear := q.rear,
              count := q.count - 1 }) := by
          simp [dequeue, is_empty, hemp]
        obtain ⟨hwf1, hc1, _⟩ := dequeue_spec q _ _ hwf h1
        simp only [h1, hc1]
        rw [← ih _ hwf1]
        cases run_ops ops _ with
        | error f => rfl
        | ok r => rfl

/-! ## Invariants of the simulation loop -/

theorem arrivals_processed_append (cfg : Config) (hist : List SimState) (s : SimState) :
    arrivals_processed cfg (hist ++ [s]) =
      arrivals_processed cfg hist + (if arrival_selected cfg s then 1 else 0) := by
  unfold arrivals_processed
  rw [List.filter_append, List.length_append]
  by_cases h : arrival_selected cfg s = true <;> simp [List.filter, h]

theorem departures_processed_append (cfg : Config) (hist : List SimState) (s : SimState) :
    departures_processed cfg (hist ++ [s]) =
      departures_processed cfg hist + (if departure_processed cfg s then 1 else 0) := by
  unfold departures_processed
  rw [List.filter_append, List.length_append]
  by_cases h : departure_processed cfg s = true <;> simp [List.filter, h]

theorem wrap32_succ (n : ℕ) (h : n + 1 < 2147483648) :
    wrap32 ((n : ℤ) + 1) = ((n + 1 : ℕ) : ℤ) := by
  unfold wrap32
  omega

theorem departure_processed_of_selected (cfg : Config) (s : SimState)
    (h : arrival_selected cfg s = true) : departure_processed cfg s = false := by
  simp [departure_processed, h]

theorem struct_inv_init (cfg : Config) (draws : ℕ → ℚ) (q0 : Queue) :
    StructInv cfg [] (init_state cfg draws q0) := by
  refine ⟨init_queue_WF q0, ?_, ?_, ?_, ?_, ?_⟩ <;>
    simp [init_state, init_queue, arrivals_processed, departures_processed]

theorem struct_inv_step (cfg : Config) (draws : ℕ → ℚ) (hist : List SimState)
    (s s1 : SimState) (hinv : StructInv cfg hist s)
    (h : (loop_body cfg draws s).state? = some s1) :
    StructInv cfg (hist ++ [s]) s1 := by
  obtain ⟨hwf, hlen, hie, hii, hcons, hserved⟩ := hinv
  unfold loop_body at h
  by_cases ha : arrival_selected cfg s = true
  · have hdp := departure_processed_of_selected cfg s ha
    simp only [ha, if_true] at h
    cases hb : s.server_busy
    · simp only [hb, Bool.not_false, if_true, Outcome.state?, Option.some.injEq] at h
      subst h
      have h0 := hie hb
      refine ⟨hwf, hlen, ?_, ?_, ?_, ?_⟩
      · intro hc; simp at hc
      · intro hc; simp at hc
      · rw [arrivals_processed_append, departures_processed_append, hcons]
        simp [ha, hdp, hb, h0]
      · rw [departures_processed_append]
        simpa [hdp] using hserved
    · simp only [hb, Bool.not_true, Bool.false_eq_true, if_false] at h
      cases he : enqueue s.q s.next_arrival with
      | error f => simp [he, Outcome.state?] at h
      | ok q1 =>
        simp only [he, Outcome.state?, Option.some.injEq] at h
        subst h
        obtain ⟨hwf1, _, hc1⟩ := enqueue_spec _ _ _ hwf he
        refine ⟨hwf1, ?_, ?_, ?_, ?_, ?_⟩
        · simp only [hc1, hlen]
        · intro hc; simp_all
        · intro hc; simp_all
        · rw [arrivals_processed_append, departures_processed_append, hcons]
          simp only [ha, hdp, hb, if_true, Bool.false_eq_true, if_false]
          omega
        · rw [departures_processed_append]
          simpa [hdp] using hserved
  · have hsel : arrival_selected cfg s = false := by simpa using ha
    simp only [ha, Bool.false_eq_true, if_false] at h
    by_cases hinf : s.next_departure = INF
    · have hdp : departure_processed cfg s = false := by simp [departure_processed, hinf]
      simp only [hinf, if_true, Outcome.state?, Option.some.injEq] at h
      subst h
      refine ⟨hwf, hlen, hie, hii, ?_, ?_⟩
      · rw [arrivals_processed_append, departures_processed_append, hcons]
        simp [hsel, hdp]
      · rw [departures_processed_append]
        simpa [hdp] using hserved
    · simp only [hinf, if_false] at h
      have hbusy : s.server_busy = true := by
        cases hb : s.server_busy
        · exact absurd (hii hb) hinf
        · rfl
      by_cases htr : s.next_departure > cfg.total_sim_time
      · have hdp : departure_processed cfg s = false := by simp [departure_processed, htr]
        simp only [htr, if_true, Outcome.state?, Option.some.injEq] at h
        subst h
        refine ⟨hwf, hlen, hie, hii, ?_, ?_⟩
        · rw [arrivals_processed_append, departures_processed_append, hcons]
          simp [hsel, hdp]
        · rw [departures_processed_append]
          simpa [hdp] using hserved
      · have hdp : departure_processed cfg s = true := by
          simp [departure_processed, hsel, hinf, not_lt.1 htr]
        have hserved1 : departures_processed cfg (hist ++ [s]) < 2147483648 →
            wrap32 (s.customers_served + 1) =
              (departures_processed cfg (hist ++ [s]) : ℤ) := by
          rw [departures_processed_append]
          simp only [hdp, if_true]
          intro hlt
          rw [hserved (by omega)]
          exact wrap32_succ _ hlt
        simp only [htr, if_false] at h
        by_cases hq : s.queue_length > 0
        · simp only [hq, if_true] at h
          cases hd : dequeue s.q with
          | error f => simp [hd, Outcome.state?] at h
          | ok r =>
            obtain ⟨a, q1⟩ := r
            simp only [hd, Outcome.state?, Option.some.injEq] at h
            subst h
            obtain ⟨hwf1, _, hc1⟩ := dequeue_spec _ _ _ hwf hd
            refine ⟨hwf1, ?_, ?_, ?_, ?_, hserved1⟩
            · simp only; omega
            · intro hc; simp_all
            · intro hc; simp_all
            · rw [arrivals_processed_append, departures_processed_append, hcons]
              simp only [hsel, hdp, hbusy, if_true, Bool.false_eq_true, if_false]
              omega
        · simp only [hq, if_false, Outcome.state?, Option.some.injEq] at h
          subst h
          refine ⟨hwf, hlen, ?_, ?_, ?_, hserved1⟩
          · intro _; simp only; omega
          · intro _; rfl
          · rw [arrivals_processed_append, departures_processed_append, hcons]
            simp only [hsel, hdp, hbusy, if_true, Bool.false_eq_true, if_false]
            omega

theorem next_state? (cfg : Config) (draws : ℕ → ℚ) (s s1 : SimState)
    (h : loop_body cfg draws s = .next s1) : (loop_body cfg draws s).state? = some s1 := by
  rw [h]; rfl

theorem stop_state? (cfg : Config) (draws : ℕ → ℚ) (s s1 : SimState)
    (h : loop_body cfg draws s = .stop s1) : (loop_body cfg draws s).state? = some s1 := by
  rw [h]; rfl

theorem reach_struct_inv (cfg : Config) (draws : ℕ → ℚ) (q0 : Queue)
    (hist : List SimState) (r : Bool) (s : SimState)
    (h : Reach cfg draws q0 hist r s) : StructInv cfg hist s := by
  induction h with
  | init => exact struct_inv_init cfg draws q0
  | next hist s s1 _ _ hb ih => exact struct_inv_step cfg draws hist s s1 ih (next_state? _ _ _ _ hb)
  | stop hist s s1 _ _ hb ih => exact struct_inv_step cfg draws hist s s1 ih (stop_state? _ _ _ _ hb)

/-- What every iteration that produces a state adds to the two integrals:
the values held before the iteration times the clock advance. -/
theorem step_integrals (cfg : Config) (draws : ℕ → ℚ) (s s1 : SimState)
    (h : (loop_body cfg draws s).state? = some s1) :
    s1.area_num_in_queue =
        s.area_num_in_queue + (s.queue_length : ℚ) * (s1.clock_time - s.clock_time) ∧
      s1.busy_time =
        s.busy_time + (if s.server_busy then s1.clock_time - s.clock_time else 0) := by
  unfold loop_body at h
  by_cases ha : arrival_selected cfg s = true
  · simp only [ha, if_true] at h
    cases hb : s.server_busy
    · simp only [hb, Bool.not_false, if_true, Outcome.state?, Option.some.injEq] at h
      subst h
      simp
    · simp only [hb, Bool.not_true, Bool.false_eq_true, if_false] at h
      cases he : enqueue s.q s.next_arrival with
      | error f => simp [he, Outcome.state?] at h
      | ok q1 =>
        simp only [he, Outcome.state?, Option.some.injEq] at h
        subst h
        simp
  · simp only [ha, Bool.false_eq_true, if_false] at h
    by_cases hinf : s.next_departure = INF
    · simp only [hinf, if_true, Outcome.state?, Option.some.injEq] at h
      subst h
      simp
    · simp only [hinf, if_false] at h
      by_cases htr : s.next_departure > cfg.total_sim_time
      · simp only [htr, if_true, Outcome.state?, Option.some.injEq] at h
        subst h
        cases hb : s.server_busy <;> simp
      · simp only [htr, if_false] at h
        by_cases hq : s.queue_length > 0
        · simp only [hq, if_true] at h
          cases hd : dequeue s.q with
          | error f => simp [hd, Outcome.state?] at h
          | ok r =>
            obtain ⟨a, q1⟩ := r
            simp only [hd, Outcome.state?, Option.some.injEq] at h
            subst h
            cases hb : s.server_busy <;> simp
        · simp only [hq, if_false, Outcome.state?, Option.some.injEq] at h
          subst h
          cases hb : s.server_busy <;> simp

theorem exp_rand_pos (u rate : ℚ) (hu : 0 < u) (hr : 0 < rate) : 0 < exp_rand u rate :=
  div_pos hu hr

theorem time_inv_init (cfg : Config) (draws : ℕ → ℚ) (q0 : Queue)
    (hv : cfg.valid) (hpos : ∀ k, 0 < draws k) : TimeInv cfg (init_state cfg draws q0) := by
  obtain ⟨ha, _, ht⟩ := hv
  refine ⟨le_refl _, le_of_lt ht, exp_rand_pos _ _ (hpos 0) ha, ?_, le_refl _, le_refl _⟩
  simp [init_state]

theorem time_inv_step (cfg : Config) (draws : ℕ → ℚ) (s s1 : SimState)
    (hv : cfg.valid) (hpos : ∀ k, 0 < draws k)
    (hidle : s.server_busy = false → s.next_departure = INF)
    (hinv : TimeInv cfg s) (h : (loop_body cfg draws s).state? = some s1) :
    TimeInv cfg s1 ∧ s.clock_time ≤ s1.clock_time := by
  obtain ⟨hra, hrs, _⟩ := hv
  obtain ⟨h0, hT, harr, hdep, hb0, hbc⟩ := hinv
  unfold loop_body at h
  by_cases ha : arrival_selected cfg s = true
  · have hsel := ha
    simp only [arrival_selected, decide_eq_true_eq] at hsel
    obtain ⟨hnd, hnT⟩ := hsel
    simp only [ha, if_true] at h
    cases hb : s.server_busy
    · simp only [hb, Bool.not_false, if_true, Outcome.state?, Option.some.injEq] at h
      subst h
      have d1 := exp_rand_pos _ _ (hpos s.draws_used) hrs
      have d2 := exp_rand_pos _ _ (hpos (s.draws_used + 1)) hra
      refine ⟨⟨?_, ?_, ?_, ?_, ?_, ?_⟩, ?_⟩ <;> simp only [Bool.false_eq_true, if_false] <;>
        first | linarith | (intro _; linarith)
    · simp only [hb, Bool.not_true, Bool.false_eq_true, if_false] at h
      cases he : enqueue s.q s.next_arrival with
      | error f => simp [he, Outcome.state?] at h
      | ok q1 =>
        simp only [he, Outcome.state?, Option.some.injEq] at h
        subst h
        have d1 := exp_rand_pos _ _ (hpos s.draws_used) hra
        have hd := hdep hb
        refine ⟨⟨?_, ?_, ?_, ?_, ?_, ?_⟩, ?_⟩ <;> simp only [if_true] <;>
          first | linarith | (intro _; linarith)
  · have hsel := ha
    simp only [arrival_selected, decide_eq_true_eq, not_and_or, not_le] at hsel
    simp only [ha, Bool.false_eq_true, if_false] at h
    by_cases hinf : s.next_departure = INF
    · simp only [hinf, if_true, Outcome.state?, Option.some.injEq] at h
      subst h
      exact ⟨⟨h0, hT, harr, hdep, hb0, hbc⟩, le_refl _⟩
    · simp only [hinf, if_false] at h
      have hbusy : s.server_busy = true := by
        cases hb : s.server_busy
        · exact absurd (hidle hb) hinf
        · rfl
      have hd := hdep hbusy
      by_cases htr : s.next_departure > cfg.total_sim_time
      · simp only [htr, if_true, Outcome.state?, Option.some.injEq] at h
        subst h
        have hna : cfg.total_sim_time < s.next_arrival := by
          rcases hsel with h1 | h1
          · exact lt_trans htr h1
          · exact h1
        refine ⟨⟨?_, ?_, ?_, ?_, ?_, ?_⟩, ?_⟩ <;> simp only [hbusy, if_true] <;>
          first | linarith | (intro _; linarith)
      · simp only [htr, if_false] at h
        have hle : s.next_departure ≤ cfg.total_sim_time := not_lt.1 htr
        have hna : s.next_departure < s.next_arrival := by
          rcases hsel with h1 | h1
          · exact h1
          · exact lt_of_le_of_lt hle h1
        by_cases hq : s.queue_length > 0
        · simp only [hq, if_true] at h
          cases hdq : dequeue s.q with
          | error f => simp [hdq, Outcome.state?] at h
          | ok r =>
            obtain ⟨a, q1⟩ := r
            simp only [hdq, Outcome.state?, Option.some.injEq] at h
            subst h
            have d1 := exp_rand_pos _ _ (hpos s.draws_used) hrs
            refine ⟨⟨?_, ?_, ?_, ?_, ?_, ?_⟩, ?_⟩ <;> simp only [hbusy, if_true] <;>
              first | linarith | (intro _; linarith)
        · simp only [hq, if_false, Outcome.state?, Option.some.injEq] at h
          subst h
          refine ⟨⟨?_, ?_, ?_, ?_, ?_, ?_⟩, ?_⟩ <;> simp only [hbusy, if_true] <;>
            first | linarith | simp

theorem reach_time_inv (cfg : Config) (draws : ℕ → ℚ) (q0 : Queue)
    (hv : cfg.valid) (hpos : ∀ k, 0 < draws k)
    (hist : List SimState) (r : Bool) (s : SimState)
    (h : Reach cfg draws q0 hist r s) : TimeInv cfg s := by
  induction h with
  | init => exact time_inv_init cfg draws q0 hv hpos
  | next hist s s1 hr _ hb ih =>
    exact (time_inv_step cfg draws s s1 hv hpos
      (reach_struct_inv cfg draws q0 hist true s hr).idle_inf ih (next_state? _ _ _ _ hb)).1
  | stop hist s s1 hr _ hb ih =>
    exact (time_inv_step cfg draws s s1 hv hpos
      (reach_struct_inv cfg draws q0 hist true s hr).idle_inf ih (stop_state? _ _ _ _ hb)).1

/-- A loop that ends without a fault ends in a state of the run. -/
theorem sim_loop_reach (cfg : Config) (draws : ℕ → ℚ) (q0 : Queue) (fuel : ℕ) :
    ∀ (hist : List SimState) (s s1 : SimState), Reach cfg draws q0 hist true s →
      sim_loop cfg draws fuel s = some (.ok s1) →
      ∃ hist1 r, Reach cfg draws q0 hist1 r s1 ∧
        (s1.clock_time < cfg.total_sim_time → r = false) := by
  induction fuel with
  | zero => intro hist s s1 _ h; simp [sim_loop] at h
  | succ n ih =>
    intro hist s s1 hr h
    unfold sim_loop at h
    by_cases hc : s.clock_time < cfg.total_sim_time
    · simp only [hc, if_true] at h
      cases hb : loop_body cfg draws s with
      | next s2 =>
        simp only [hb] at h
        exact ih _ s2 s1 (Reach.next hist s s2 hr hc hb) h
      | stop s2 =>
        simp only [hb, Option.some.injEq, Except.ok.injEq] at h
        subst h
        exact ⟨_, false, Reach.stop hist s s2 hr hc hb, fun _ => rfl⟩
      | fault f => simp [hb] at h
    · simp only [hc, if_false, Option.some.injEq, Except.ok.injEq] at h
      subst h
      exact ⟨hist, true, hr, fun hlt => absurd hlt hc⟩

/-- A completed `main` reports the statistics of a state of the run. -/
theorem main_completed (cfg : Config) (draws : ℕ → ℚ) (q0 : Queue) (fuel : ℕ) (rep : Report)
    (h : main cfg draws q0 fuel = some (.completed rep)) :
    ∃ hist r s, Reach cfg draws q0 hist r s ∧ rep = final_statistics s := by
  unfold main at h
  by_cases hrej : input_rejected cfg = true
  · simp [hrej] at h
  · simp only [hrej, Bool.false_eq_true, if_false] at h
    cases hl : sim_loop cfg draws fuel (init_state cfg draws q0) with
    | none => simp [hl] at h
    | some res =>
      cases res with
      | error f => simp [hl] at h
      | ok s =>
        simp only [hl, Option.some.injEq, Exit.completed.injEq] at h
        obtain ⟨hist1, r, hr, _⟩ := sim_loop_reach cfg draws q0 fuel [] _ s Reach.init hl
        exact ⟨hist1, r, s, hr, h.symm⟩

theorem riemann_sum_snoc (f : SimState → ℚ) (a b : SimState) :
    ∀ l : List SimState, riemann_sum f (l ++ [a] ++ [b]) =
      riemann_sum f (l ++ [a]) + f a * (b.clock_time - a.clock_time) := by
  intro l
  induction l with
  | nil => simp [riemann_sum]
  | cons x l ih =>
    cases l with
    | nil => simp [riemann_sum]
    | cons y l =>
      simp only [List.cons_append] at ih ⊢
      rw [riemann_sum, riemann_sum, ih]
      ring

theorem arrival_times_append (cfg : Config) (hist : List SimState) (s : SimState) :
    arrival_times cfg (hist ++ [s]) =
      arrival_times cfg hist ++ (if arrival_selected cfg s then [s.next_arrival] else []) := by
  unfold arrival_times
  rw [List.filter_append, List.map_append]
  by_cases h : arrival_selected cfg s = true <;> simp [List.filter, h]

theorem service_starts_append (cfg : Config) (hist : List SimState) (s : SimState) :
    service_starts cfg (hist ++ [s]) =
      service_starts cfg hist ++
        (if arrival_selected cfg s then
          (if s.server_busy then [] else [s.next_arrival])
        else if departure_processed cfg s && decide (s.queue_length > 0) then
          [s.next_departure]
        else []) := by
  unfold service_starts
  rw [List.filterMap_append]
  congr 1
  by_cases h : arrival_selected cfg s = true
  · cases hb : s.server_busy <;> simp [List.filterMap, h, hb]
  · by_cases h2 : (departure_processed cfg s && decide (s.queue_length > 0)) = true
    · simp only [List.filterMap, h, h2, if_true, Bool.false_eq_true, if_false]
    · simp only [List.filterMap, h, h2, Bool.false_eq_true, if_false]

theorem zipWith_sub_snoc (S P : List ℚ) (x y : ℚ) (h : S.length = P.length) :
    (List.zipWith (fun a b => a - b) (S ++ [x]) (P ++ [y])).sum =
      (List.zipWith (fun a b => a - b) S P).sum + (x - y) := by
  rw [List.zipWith_append _ _ _ _ _ h]
  simp

theorem zipWith_sub_append_right (S P Q : List ℚ) (h : S.length = P.length) :
    List.zipWith (fun a b => a - b) S (P ++ Q) = List.zipWith (fun a b => a - b) S P := by
  have := List.zipWith_append (fun (a b : ℚ) => a - b) S [] P Q h
  simpa using this

theorem wait_inv_init (cfg : Config) (draws : ℕ → ℚ) (q0 : Queue) :
    WaitInv cfg [] (init_state cfg draws q0) := by
  refine ⟨[], ?_, ?_, ?_, ?_⟩ <;>
    simp [init_state, arrival_times, service_starts, init_queue_contents, departures_processed]

theorem wait_inv_step (cfg : Config) (draws : ℕ → ℚ) (hist : List SimState)
    (s s1 : SimState) (hs : StructInv cfg hist s) (hinv : WaitInv cfg hist s)
    (h : (loop_body cfg draws s).state? = some s1) :
    WaitInv cfg (hist ++ [s]) s1 := by
  obtain ⟨hwf, hlen, hie, hii, _⟩ := hs
  obtain ⟨P, hA, hL, hW, hN⟩ := hinv
  unfold WaitInv
  rw [arrival_times_append, service_starts_append, departures_processed_append]
  unfold loop_body at h
  by_cases ha : arrival_selected cfg s = true
  · have hdp0 := departure_processed_of_selected cfg s ha
    simp only [ha, if_true, hdp0, Bool.false_eq_true, if_false, Nat.add_zero] at h ⊢
    cases hb : s.server_busy
    · simp only [hb, Bool.not_false, if_true, Outcome.state?, Option.some.injEq] at h
      subst h
      have hc0 : s.q.count = 0 := by rw [← hlen]; exact hie hb
      have hcont : s.q.contents = [] := by simp [Queue.contents, hc0]
      refine ⟨P ++ [s.next_arrival], ?_, ?_, ?_, ?_⟩
      · simp [hA, hcont]
      · simp [hL]
      · simp only [Bool.false_eq_true, if_false]
        rw [zipWith_sub_snoc _ _ _ _ hL, ← hW]
        simp
      · simp [hN, hb]
    · simp only [hb, Bool.not_true, Bool.false_eq_true, if_false] at h
      cases he : enqueue s.q s.next_arrival with
      | error f => simp [he, Outcome.state?] at h
      | ok q1 =>
        simp only [he, Outcome.state?, Option.some.injEq] at h
        subst h
        obtain ⟨_, hc1, _⟩ := enqueue_spec _ _ _ hwf he
        refine ⟨P, ?_, ?_, ?_, ?_⟩
        · simp [hA, hc1]
        · simpa using hL
        · simpa using hW
        · simpa [hb] using hN
  · have hsel : arrival_selected cfg s = false := by simpa using ha
    simp only [ha, Bool.false_eq_true, if_false] at h ⊢
    by_cases hinf : s.next_departure = INF
    · simp only [hinf, if_true, Outcome.state?, Option.some.injEq] at h
      subst h
      have hdp : departure_processed cfg s = false := by
        simp [departure_processed, hinf]
      simp only [hdp, Bool.false_and, Bool.false_eq_true, if_false, List.append_nil,
          Nat.add_zero]
      exact ⟨P, hA, hL, hW, hN⟩
    · simp only [hinf, if_false] at h
      have hbusy : s.server_busy = true := by
        cases hb : s.server_busy
        · exact absurd (hii hb) hinf
        · rfl
      by_cases htr : s.next_departure > cfg.total_sim_time
      · simp only [htr, if_true, Outcome.state?, Option.some.injEq] at h
        subst h
        have hdp : departure_processed cfg s = false := by
          simp [departure_processed, htr]
        simp only [hdp, Bool.false_and, Bool.false_eq_true, if_false, List.append_nil,
          Nat.add_zero]
        exact ⟨P, hA, hL, hW, hN⟩
      · simp only [htr, if_false] at h
        have hdp : departure_processed cfg s = true := by
          simp [departure_processed, hsel, hinf, not_lt.1 htr]
        by_cases hq : s.queue_length > 0
        · simp only [hq, if_true] at h
          cases hd : dequeue s.q with
          | error f => simp [hd, Outcome.state?] at h
          | ok r =>
            obtain ⟨a, q1⟩ := r
            simp only [hd, Outcome.state?, Option.some.injEq] at h
            subst h
            obtain ⟨_, hc1, _⟩ := dequeue_spec _ _ _ hwf hd
            simp only [hdp, hq, decide_True, Bool.and_self, if_true, List.append_nil]
            refine ⟨P ++ [a], ?_, ?_, ?_, ?_⟩
            · simp [hA, hc1]
            · simp [hL]
            · rw [zipWith_sub_snoc _ _ _ _ hL, ← hW]
            · simp only [List.length_append, List.length_singleton, hN, hbusy, if_true]
        · simp only [hq, if_false, Outcome.state?, Option.some.injEq] at h
          subst h
          simp only [hdp, hq, decide_False, Bool.and_false, Bool.false_eq_true, if_false,
            List.append_nil]
          refine ⟨P, hA, hL, hW, ?_⟩
          simp only [hN, hbusy, if_true, Bool.false_eq_true, if_false, Nat.add_zero]

theorem reach_wait_inv (cfg : Config) (draws : ℕ → ℚ) (q0 : Queue)
    (hist : List SimState) (r : Bool) (s : SimState)
    (h : Reach cfg draws q0 hist r s) : WaitInv cfg hist s := by
  induction h with
  | init => exact wait_inv_init cfg draws q0
  | next hist s s1 hr _ hb ih =>
    exact wait_inv_step cfg draws hist s s1 (reach_struct_inv cfg draws q0 hist true s hr) ih
      (next_state? _ _ _ _ hb)
  | stop hist s s1 hr _ hb ih =>
    exact wait_inv_step cfg draws hist s s1 (reach_struct_inv cfg draws q0 hist true s hr) ih
      (stop_state? _ _ _ _ hb)

/-! ## The concrete runs, step by step -/

theorem late_cfg_valid : late_cfg.valid := by
  norm_num [Config.valid, late_cfg]

theorem late_draws_pos : ∀ k, 0 < late_draws k := by
  intro k; norm_num [late_draws]

theorem idle_cfg_valid : idle_cfg.valid := by
  norm_num [Config.valid, idle_cfg]

theorem idle_draws_pos : ∀ k, 0 < idle_draws k := by
  intro k
  unfold idle_draws
  split_ifs <;> norm_num

theorem idle_body_0 : loop_body idle_cfg idle_draws idle_s0 = .next idle_s1 := by
  norm_num [loop_body, idle_s0, idle_s1, init_state, arrival_selected, exp_rand, INF, idle_cfg,
    idle_draws]

theorem idle_body_1 : loop_body idle_cfg idle_draws idle_s1 = .next idle_s2 := by
  norm_num [loop_body, idle_s1, idle_s2, arrival_selected, exp_rand, INF, idle_cfg, idle_draws,
    wrap32]

theorem idle_body_2 : loop_body idle_cfg idle_draws idle_s2 = .stop idle_s2 := by
  norm_num [loop_body, idle_s2, arrival_selected, exp_rand, INF, idle_cfg, idle_draws]

theorem idle_loop :
    sim_loop idle_cfg idle_draws 3 (init_state idle_cfg idle_draws demo_q0) =
      some (.ok idle_s2) := by
  have e : init_state idle_cfg idle_draws demo_q0 = idle_s0 := rfl
  rw [e]
  simp only [sim_loop, idle_body_0, idle_body_1, idle_body_2]
  norm_num [idle_s0, idle_s1, idle_s2, init_state, idle_cfg]

theorem idle_main :
    main idle_cfg idle_draws demo_q0 3 = some (.completed (final_statistics idle_s2)) := by
  unfold main
  rw [idle_loop]
  norm_num [input_rejected, idle_cfg]

theorem busy_cfg_valid : busy_cfg.valid := by
  norm_num [Config.valid, busy_cfg]

theorem busy_draws_pos : ∀ k, 0 < busy_draws k := by
  intro k
  unfold busy_draws
  split_ifs <;> norm_num

theorem busy_body_0 : loop_body busy_cfg busy_draws busy_s0 = .next busy_s1 := by
  norm_num [loop_body, busy_s0, busy_s1, init_state, arrival_selected, exp_rand, INF, busy_cfg,
    busy_draws]

theorem busy_body_1 : loop_body busy_cfg busy_draws busy_s1 = .next busy_s2 := by
  norm_num [loop_body, busy_s1, busy_s2, arrival_selected, exp_rand, INF, busy_cfg, busy_draws,
    enqueue, is_full, init_queue, demo_q0, MAX_QUEUE]

theorem busy_body_2 : loop_body busy_cfg busy_draws busy_s2 = .next busy_s3 := by
  norm_num [loop_body, busy_s2, busy_s3, arrival_selected, exp_rand, INF, busy_cfg, busy_draws,
    dequeue, is_empty, demo_q0, MAX_QUEUE, wrap32]

theorem busy_body_3 : loop_body busy_cfg busy_draws busy_s3 = .stop busy_s4 := by
  norm_num [loop_body, busy_s3, busy_s4, arrival_selected, exp_rand, INF, busy_cfg, busy_draws]

theorem busy_reach_2 :
    Reach busy_cfg busy_draws demo_q0 [busy_s0, busy_s1] true busy_s2 := by
  have h0 : Reach busy_cfg busy_draws demo_q0 [] true busy_s0 := Reach.init
  have h1 := Reach.next [] busy_s0 busy_s1 h0
    (by norm_num [busy_s0, init_state, busy_cfg]) busy_body_0
  exact Reach.next _ busy_s1 busy_s2 h1 (by norm_num [busy_s1, busy_cfg]) busy_body_1

theorem busy_reach_3 :
    Reach busy_cfg busy_draws demo_q0 [busy_s0, busy_s1, busy_s2] true busy_s3 :=
  Reach.next _ busy_s2 busy_s3 busy_reach_2 (by norm_num [busy_s2, busy_cfg]) busy_body_2

theorem busy_reach_4 :
    Reach busy_cfg busy_draws demo_q0 [busy_s0, busy_s1, busy_s2, busy_s3] false busy_s4 :=
  Reach.stop _ busy_s3 busy_s4 busy_reach_3 (by norm_num [busy_s3, busy_cfg]) busy_body_3

theorem busy_loop :
    sim_loop busy_cfg busy_draws 4 (init_state busy_cfg busy_draws demo_q0) =
      some (.ok busy_s4) := by
  have e : init_state busy_cfg busy_draws demo_q0 = busy_s0 := rfl
  rw [e]
  simp only [sim_loop, busy_body_0, busy_body_1, busy_body_2, busy_body_3]
  norm_num [busy_s0, busy_s1, busy_s2, busy_s3, init_state, busy_cfg]

theorem busy_main :
    main busy_cfg busy_draws demo_q0 4 = some (.completed (final_statistics busy_s4)) := by
  unfold main
  rw [busy_loop]
  norm_num [input_rejected, busy_cfg]

theorem busy_customer_waits :
    customer_waits busy_cfg [busy_s0, busy_s1, busy_s2, busy_s3] = [0, 3] := by
  norm_num [customer_waits, service_starts, arrival_times, arrival_selected,
    departure_processed, busy_cfg, busy_s0, busy_s1, busy_s2, busy_s3, init_state, exp_rand,
    busy_draws, INF, List.filter, List.filterMap]

/-! ## Further facts about single iterations -/

/-- The two ways the body leaves the loop: the no-departure `break`, which
leaves the state as it is, or the truncation, which sets the clock to the
horizon. -/
theorem loop_body_stop (cfg : Config) (draws : ℕ → ℚ) (s s1 : SimState)
    (h : loop_body cfg draws s = .stop s1) :
    (s1 = s ∧ s.next_departure = INF ∧ arrival_selected cfg s = false) ∨
      s1.clock_time = cfg.total_sim_time := by
  unfold loop_body at h
  by_cases ha : arrival_selected cfg s = true
  · simp only [ha, if_true] at h
    cases hb : s.server_busy
    · simp [hb] at h
    · simp only [hb, Bool.not_true, Bool.false_eq_true, if_false] at h
      cases he : enqueue s.q s.next_arrival <;> simp [he] at h
  · simp only [ha, Bool.false_eq_true, if_false] at h
    by_cases hinf : s.next_departure = INF
    · simp only [hinf, if_true, Outcome.stop.injEq] at h
      exact Or.inl ⟨h.symm, hinf, by simpa using ha⟩
    · simp only [hinf, if_false] at h
      by_cases htr : s.next_departure > cfg.total_sim_time
      · simp only [htr, if_true, Outcome.stop.injEq] at h
        subst h
        exact Or.inr rfl
      · simp only [htr, if_false] at h
        by_cases hq : s.queue_length > 0
        · simp only [hq, if_true] at h
          cases hd : dequeue s.q <;> simp [hd] at h
        · simp [hq] at h

/-- While the clock is positive the reported utilization is a fraction of one. -/
theorem utilization_bounds (cfg : Config) (draws : ℕ → ℚ) (q0 : Queue)
    (hv : cfg.valid) (hpos : ∀ k, 0 < draws k)
    (hist : List SimState) (r : Bool) (s : SimState)
    (h : Reach cfg draws q0 hist r s) :
    0 ≤ s.busy_time ∧ s.busy_time ≤ s.clock_time ∧
      ∀ u, (final_statistics s).utilization = some u → 0 ≤ u ∧ u ≤ 1 := by
  have ht := reach_time_inv cfg draws q0 hv hpos hist r s h
  refine ⟨ht.busy_nonneg, ht.busy_le, ?_⟩
  intro u hu
  simp only [final_statistics, fdiv] at hu
  by_cases hc : s.clock_time = 0
  · simp [hc] at hu
  · simp only [hc, if_false, Option.some.injEq] at hu
    have hcpos : 0 < s.clock_time := lt_of_le_of_ne ht.clock_nonneg (Ne.symm hc)
    subst hu
    exact ⟨div_nonneg ht.busy_nonneg ht.clock_nonneg, (div_le_one hcpos).2 ht.busy_le⟩

/-! ## The claims -/

/-- C1: on every sequence of `enqueue` / `dequeue` calls applied to a queue
produced by `init_queue` in which no call overflows or underflows, the circular
buffer returns the same values, in the same order, as a list queue that
appends at the tail and removes the head, and its final contents are that
list; so each `dequeue` returns the oldest value not yet dequeued, wrap-around
of `front` and `rear` included. -/
theorem ring_buffer_is_fifo (ops : List QueueOp) (q0 q : Queue) (outs : List ℚ)
    (h : run_ops ops (init_queue q0) = .ok (q, outs)) :
    list_queue_run ops [] = some (q.contents, outs) := by
  have key := run_ops_eq_list_queue_run ops (init_queue q0) (init_queue_WF q0)
  rw [h, init_queue_contents] at key
  exact key.symm

/-- C1 at `demo_ops`: the values 5 and 7 come out in the order they went in. -/
theorem ring_buffer_is_fifo_witness :
    run_ops demo_ops (init_queue demo_q0) = .ok (demo_q, [5, 7]) ∧
      list_queue_run demo_ops [] = some (demo_q.contents, [5, 7]) :=
  ⟨rfl, ring_buffer_is_fifo demo_ops demo_q0 demo_q [5, 7] rfl⟩

/-- C2, as the code has it: for every valid configuration whose first
scheduled arrival is after the horizon, the run (with any positive iteration
bound) completes in the initial state, at the no-departure `break` of the
first iteration: `customers_served = 0`, the duration is `0` (the clock is not
moved to the horizon), `avg_wait = 0` and `busy_time = 0`. -/
theorem first_arrival_after_horizon (cfg : Config) (draws : ℕ → ℚ) (q0 : Queue) (fuel : ℕ)
    (hv : cfg.valid)
    (hfirst : cfg.total_sim_time < exp_rand (draws 0) cfg.arrival_rate) :
    main cfg draws q0 (fuel + 1) =
        some (.completed (final_statistics (init_state cfg draws q0))) ∧
      (final_statistics (init_state cfg draws q0)).customers_served = 0 ∧
      (final_statistics (init_state cfg draws q0)).sim_duration = 0 ∧
      (final_statistics (init_state cfg draws q0)).avg_wait_time = 0 ∧
      (init_state cfg draws q0).busy_time = 0 := by
  obtain ⟨ha, hs, ht⟩ := hv
  refine ⟨?_, ?_, ?_, ?_, ?_⟩
  · have hrej : input_rejected cfg = false := by
      simp only [input_rejected, decide_eq_false_iff_not, not_or, not_le]
      exact ⟨ha, hs, ht⟩
    have hsel : arrival_selected cfg (init_state cfg draws q0) = false := by
      simp only [arrival_selected, decide_eq_false_iff_not, not_and, not_le]
      intro _
      exact hfirst
    have hbody : loop_body cfg draws (init_state cfg draws q0) =
        .stop (init_state cfg draws q0) := by
      unfold loop_body
      simp only [hsel, Bool.false_eq_true, if_false]
      simp [init_state]
    have hclock : (init_state cfg draws q0).clock_time < cfg.total_sim_time := by
      simpa [init_state] using ht
    unfold main
    simp only [hrej, Bool.false_eq_true, if_false, sim_loop, hclock, if_true, hbody]
  · simp [final_statistics, init_state]
  · simp [final_statistics, init_state]
  · simp [final_statistics, init_state]
  · simp [init_state]

/-- C2 at `late_cfg`: the run completes with duration 0. -/
theorem first_arrival_after_horizon_witness :
    late_cfg.valid ∧
      late_cfg.total_sim_time < exp_rand (late_draws 0) late_cfg.arrival_rate ∧
      main late_cfg late_draws demo_q0 1 =
        some (.completed (final_statistics (init_state late_cfg late_draws demo_q0))) ∧
      (final_statistics (init_state late_cfg late_draws demo_q0)).sim_duration = 0 :=
  have hfirst : late_cfg.total_sim_time < exp_rand (late_draws 0) late_cfg.arrival_rate := by
    norm_num [late_cfg, late_draws, exp_rand]
  have h := first_arrival_after_horizon late_cfg late_draws demo_q0 0 late_cfg_valid hfirst
  ⟨late_cfg_valid, hfirst, h.1, h.2.2.1⟩

/-- C2 fails as stated: with horizon 1 and the first arrival at time 2 the
reported duration is 0, not the horizon, and the utilization is not 0. -/
theorem degenerate_duration_counterexample :
    late_cfg.valid ∧
      late_cfg.total_sim_time < exp_rand (late_draws 0) late_cfg.arrival_rate ∧
      main late_cfg late_draws demo_q0 1 =
        some (.completed (final_statistics (init_state late_cfg late_draws demo_q0))) ∧
      (final_statistics (init_state late_cfg late_draws demo_q0)).sim_duration ≠
        late_cfg.total_sim_time ∧
      (final_statistics (init_state late_cfg late_draws demo_q0)).utilization ≠ some 0 := by
  refine ⟨late_cfg_valid, by norm_num [late_cfg, late_draws, exp_rand], ?_, ?_, ?_⟩
  · norm_num [main, input_rejected, sim_loop, loop_body, init_state, arrival_selected,
      exp_rand, INF, late_cfg, late_draws]
  · norm_num [final_statistics, init_state, late_cfg]
  · simp [final_statistics, init_state, fdiv]

/-- C3, as the code has it: for every valid configuration and positive draws,
a loop that ends without a fault ends with the clock at most the horizon; it
ends below the horizon only at the no-departure `break`, that is in a state
with `next_departure = INF` in which the arrival is not selected, and with the
clock equal to the horizon in every other case. Conversely, from every state
of the run with the clock below the horizon, `next_departure = INF` and the
arrival not selected, the loop ends in that very state, clock unchanged. -/
theorem final_clock_at_horizon_unless_no_departure (cfg : Config) (draws : ℕ → ℚ)
    (q0 : Queue) (fuel : ℕ) (s : SimState)
    (hv : cfg.valid) (hpos : ∀ k, 0 < draws k)
    (h : sim_loop cfg draws fuel (init_state cfg draws q0) = some (.ok s)) :
    s.clock_time ≤ cfg.total_sim_time ∧
      (s.clock_time < cfg.total_sim_time →
        s.next_departure = INF ∧ arrival_selected cfg s = false) ∧
      (¬ (s.next_departure = INF ∧ arrival_selected cfg s = false) →
        s.clock_time = cfg.total_sim_time) ∧
      (∀ hist p, Reach cfg draws q0 hist true p →
        p.clock_time < cfg.total_sim_time → p.next_departure = INF →
        arrival_selected cfg p = false →
        ∀ n, sim_loop cfg draws (n + 1) p = some (.ok p)) := by
  obtain ⟨hist, r, hr, hrun⟩ := sim_loop_reach cfg draws q0 fuel [] _ s Reach.init h
  have hle := (reach_time_inv cfg draws q0 hv hpos hist r s hr).clock_le
  have hbelow : s.clock_time < cfg.total_sim_time →
      s.next_departure = INF ∧ arrival_selected cfg s = false := by
    intro hlt
    have hfalse := hrun hlt
    subst hfalse
    cases hr with
    | stop hist0 s0 _ _ _ hb =>
      rcases loop_body_stop cfg draws s0 s hb with ⟨he, hinf, hsel⟩ | hT
      · subst he
        exact ⟨hinf, hsel⟩
      · exact absurd hT (ne_of_lt hlt)
  refine ⟨hle, hbelow, ?_, ?_⟩
  · intro hn
    by_contra hne
    exact hn (hbelow (lt_of_le_of_ne hle hne))
  · intro hist1 p _ hlt hinf hsel n
    have hbody : loop_body cfg draws p = .stop p := by
      unfold loop_body
      simp only [hsel, Bool.false_eq_true, if_false, hinf, if_true]
    unfold sim_loop
    simp only [hlt, if_true, hbody]

/-- C3 at `busy_cfg`: the run is truncated and ends with the clock at the
horizon 6. -/
theorem final_clock_at_horizon_unless_no_departure_witness :
    busy_cfg.valid ∧ (∀ k, 0 < busy_draws k) ∧
      sim_loop busy_cfg busy_draws 4 (init_state busy_cfg busy_draws demo_q0) =
        some (.ok busy_s4) ∧
      busy_s4.clock_time = busy_cfg.total_sim_time :=
  ⟨busy_cfg_valid, busy_draws_pos, busy_loop,
    (final_clock_at_horizon_unless_no_departure busy_cfg busy_draws demo_q0 4 busy_s4
      busy_cfg_valid busy_draws_pos busy_loop).2.2.1
      (by norm_num [busy_s4, INF])⟩

/-- C3 fails as stated: with horizon 10, a first arrival at time 1 (before the
horizon), its departure at 3/2 and the next arrival scheduled at 21, the loop
ends with the clock at 3/2, below the horizon. -/
theorem early_stop_counterexample :
    idle_cfg.valid ∧ (∀ k, 0 < idle_draws k) ∧
      exp_rand (idle_draws 0) idle_cfg.arrival_rate ≤ idle_cfg.total_sim_time ∧
      sim_loop idle_cfg idle_draws 3 (init_state idle_cfg idle_draws demo_q0) =
        some (.ok idle_s2) ∧
      main idle_cfg idle_draws demo_q0 3 = some (.completed (final_statistics idle_s2)) ∧
      (final_statistics idle_s2).sim_duration = 3 / 2 ∧
      (final_statistics idle_s2).sim_duration ≠ idle_cfg.total_sim_time := by
  refine ⟨idle_cfg_valid, idle_draws_pos, ?_, idle_loop, idle_main, ?_, ?_⟩
  · norm_num [exp_rand, idle_draws, idle_cfg]
  · norm_num [final_statistics, idle_s2]
  · norm_num [final_statistics, idle_s2, idle_cfg]

/-- C4, as the code has it: at every point of every run `total_wait_time` is
the sum of the waits (start of service minus own arrival timestamp, hence 0
for a customer served on arrival) of the customers who have started service,
who are the customers that have departed plus the customer in service when
the server is busy. While fewer than `2^31` customers have departed,
`customers_served` is the number of departed customers; then, when the server
is idle, `total_wait_time` is the sum over exactly the customers counted in
`customers_served` and the reported average wait is their mean wait. -/
theorem total_wait_sums_started_customers (cfg : Config) (draws : ℕ → ℚ) (q0 : Queue)
    (hist : List SimState) (r : Bool) (s : SimState)
    (h : Reach cfg draws q0 hist r s) :
    s.total_wait_time = (customer_waits cfg hist).sum ∧
      (customer_waits cfg hist).length =
        departures_processed cfg hist + (if s.server_busy then 1 else 0) ∧
      (departures_processed cfg hist < 2147483648 →
        s.customers_served = (departures_processed cfg hist : ℤ)) ∧
      (s.server_busy = false → departures_processed cfg hist < 2147483648 →
        s.total_wait_time =
            ((customer_waits cfg hist).take s.customers_served.toNat).sum ∧
          (final_statistics s).avg_wait_time =
            if s.customers_served > 0 then
              ((customer_waits cfg hist).take s.customers_served.toNat).sum /
                (s.customers_served : ℚ)
            else 0) := by
  obtain ⟨P, hA, hL, hW, hN⟩ := reach_wait_inv cfg draws q0 hist r s h
  have hserved := (reach_struct_inv cfg draws q0 hist r s h).served_eq
  have hcw : customer_waits cfg hist =
      List.zipWith (fun a b => a - b) (service_starts cfg hist) P := by
    unfold customer_waits
    rw [hA]
    exact zipWith_sub_append_right _ _ _ hL
  have hlen : (customer_waits cfg hist).length =
      departures_processed cfg hist + (if s.server_busy then 1 else 0) := by
    rw [hcw, List.length_zipWith, ← hL, min_self, hN]
  have htotal : s.total_wait_time = (customer_waits cfg hist).sum := by
    rw [hcw]; exact hW
  refine ⟨htotal, hlen, hserved, ?_⟩
  intro hb hlt
  have hlen2 : (customer_waits cfg hist).length = s.customers_served.toNat := by
    rw [hserved hlt, Int.toNat_ofNat]
    simpa [hb] using hlen
  have hsum : s.total_wait_time =
      ((customer_waits cfg hist).take s.customers_served.toNat).sum := by
    rw [← hlen2, List.take_length]
    exact htotal
  refine ⟨hsum, ?_⟩
  simp only [final_statistics]
  rw [← hsum]

/-- C4 at the `busy_cfg` run: the total wait 3 is the sum of the waits 0 and 3
of the two customers who have started service. -/
theorem total_wait_sums_started_customers_witness :
    Reach busy_cfg busy_draws demo_q0 [busy_s0, busy_s1, busy_s2, busy_s3] false busy_s4 ∧
      busy_s4.total_wait_time =
        (customer_waits busy_cfg [busy_s0, busy_s1, busy_s2, busy_s3]).sum :=
  ⟨busy_reach_4,
    (total_wait_sums_started_customers busy_cfg busy_draws demo_q0 _ false busy_s4
      busy_reach_4).1⟩

/-- C4 fails as stated: in the `busy_cfg` run one customer is counted as served
(wait 0) while `total_wait_time` is 3, the wait of the customer still in
service; the reported average wait is 3, the mean wait of the served customers
is 0. -/
theorem wait_of_customer_in_service_counterexample :
    Reach busy_cfg busy_draws demo_q0 [busy_s0, busy_s1, busy_s2, busy_s3] false busy_s4 ∧
      main busy_cfg busy_draws demo_q0 4 = some (.completed (final_statistics busy_s4)) ∧
      busy_s4.customers_served = 1 ∧
      ((customer_waits busy_cfg [busy_s0, busy_s1, busy_s2, busy_s3]).take 1).sum = 0 ∧
      busy_s4.total_wait_time = 3 ∧
      (final_statistics busy_s4).avg_wait_time = 3 := by
  refine ⟨busy_reach_4, busy_main, rfl, ?_, rfl, ?_⟩
  · rw [busy_customer_waits]
    simp
  · norm_num [final_statistics, busy_s4]

/-- C5: for every valid configuration and positive draws, at every state of
the run the clock is between 0 and the horizon, an iteration never decreases
it, and the duration reported by a completed `main` is between 0 and the
horizon. -/
theorem clock_monotone_and_bounded (cfg : Config) (draws : ℕ → ℚ) (q0 : Queue)
    (hv : cfg.valid) (hpos : ∀ k, 0 < draws k) :
    (∀ hist r s, Reach cfg draws q0 hist r s →
        0 ≤ s.clock_time ∧ s.clock_time ≤ cfg.total_sim_time ∧
        ∀ s1, (loop_body cfg draws s).state? = some s1 → s.clock_time ≤ s1.clock_time) ∧
      (∀ fuel rep, main cfg draws q0 fuel = some (.completed rep) →
        0 ≤ rep.sim_duration ∧ rep.sim_duration ≤ cfg.total_sim_time) := by
  constructor
  · intro hist r s h
    have ht := reach_time_inv cfg draws q0 hv hpos hist r s h
    have hs := reach_struct_inv cfg draws q0 hist r s h
    refine ⟨ht.clock_nonneg, ht.clock_le, ?_⟩
    intro s1 hstep
    exact (time_inv_step cfg draws s s1 hv hpos hs.idle_inf ht hstep).2
  · intro fuel rep hm
    obtain ⟨hist, r, s, hr, hrep⟩ := main_completed cfg draws q0 fuel rep hm
    have ht := reach_time_inv cfg draws q0 hv hpos hist r s hr
    subst hrep
    exact ⟨ht.clock_nonneg, ht.clock_le⟩

/-- C5 at the `idle_cfg` run: the reported duration 3/2 is between 0 and 10. -/
theorem clock_monotone_and_bounded_witness :
    idle_cfg.valid ∧ (∀ k, 0 < idle_draws k) ∧
      main idle_cfg idle_draws demo_q0 3 = some (.completed (final_statistics idle_s2)) ∧
      0 ≤ (final_statistics idle_s2).sim_duration ∧
      (final_statistics idle_s2).sim_duration ≤ idle_cfg.total_sim_time :=
  ⟨idle_cfg_valid, idle_draws_pos, idle_main,
    (clock_monotone_and_bounded idle_cfg idle_draws demo_q0 idle_cfg_valid idle_draws_pos).2
      3 (final_statistics idle_s2) idle_main⟩

/-- C6 fails on the code at a run that processes no event: with horizon 1 and
the first arrival at time 2 the loop is left with the clock at 0, and the
utilization `busy_time / sim_duration` is the quotient 0 / 0, which is no
number between 0 and 1. -/
theorem utilization_undefined_without_events :
    late_cfg.valid ∧ (∀ k, 0 < late_draws k) ∧
      main late_cfg late_draws demo_q0 1 =
        some (.completed (final_statistics (init_state late_cfg late_draws demo_q0))) ∧
      (init_state late_cfg late_draws demo_q0).busy_time = 0 ∧
      (final_statistics (init_state late_cfg late_draws demo_q0)).sim_duration = 0 ∧
      (final_statistics (init_state late_cfg late_draws demo_q0)).utilization = none := by
  refine ⟨late_cfg_valid, late_draws_pos, ?_, rfl, rfl, ?_⟩
  · norm_num [main, input_rejected, sim_loop, loop_body, init_state, arrival_selected,
      exp_rand, INF, late_cfg, late_draws]
  · simp [final_statistics, init_state, fdiv]

/-- C7: every iteration that produces a state adds to `area_num_in_queue` the
queue length held before the iteration times the clock advance, and to
`busy_time` the clock advance if the server was busy before the iteration and
nothing otherwise; hence at every state of a run each integral is the sum of
these products over the iterations made so far. -/
theorem integrals_are_time_weighted_sums (cfg : Config) (draws : ℕ → ℚ) (q0 : Queue)
    (hist : List SimState) (r : Bool) (s : SimState)
    (h : Reach cfg draws q0 hist r s) :
    (∀ p p1, (loop_body cfg draws p).state? = some p1 →
        p1.area_num_in_queue =
            p.area_num_in_queue + (p.queue_length : ℚ) * (p1.clock_time - p.clock_time) ∧
          p1.busy_time =
            p.busy_time + (if p.server_busy then p1.clock_time - p.clock_time else 0)) ∧
      s.area_num_in_queue = riemann_sum (fun p => (p.queue_length : ℚ)) (hist ++ [s]) ∧
      s.busy_time = riemann_sum (fun p => if p.server_busy then 1 else 0) (hist ++ [s]) := by
  refine ⟨fun p p1 hp => step_integrals cfg draws p p1 hp, ?_⟩
  induction h with
  | init => simp [riemann_sum, init_state]
  | next hist s s1 _ _ hb ih =>
    obtain ⟨e1, e2⟩ := step_integrals cfg draws s s1 (next_state? _ _ _ _ hb)
    rw [riemann_sum_snoc, riemann_sum_snoc, ← ih.1, ← ih.2, e1, e2]
    constructor
    · rfl
    · cases s.server_busy <;> simp
  | stop hist s s1 _ _ hb ih =>
    obtain ⟨e1, e2⟩ := step_integrals cfg draws s s1 (stop_state? _ _ _ _ hb)
    rw [riemann_sum_snoc, riemann_sum_snoc, ← ih.1, ← ih.2, e1, e2]
    constructor
    · rfl
    · cases s.server_busy <;> simp

/-- C7 at the `busy_cfg` run: the area 3 and the busy time 5 are the sums over
the four iterations. -/
theorem integrals_are_time_weighted_sums_witness :
    Reach busy_cfg busy_draws demo_q0 [busy_s0, busy_s1, busy_s2, busy_s3] false busy_s4 ∧
      busy_s4.area_num_in_queue =
        riemann_sum (fun p => (p.queue_length : ℚ))
          ([busy_s0, busy_s1, busy_s2, busy_s3] ++ [busy_s4]) ∧
      busy_s4.busy_time =
        riemann_sum (fun p => if p.server_busy then 1 else 0)
          ([busy_s0, busy_s1, busy_s2, busy_s3] ++ [busy_s4]) :=
  ⟨busy_reach_4,
    (integrals_are_time_weighted_sums busy_cfg busy_draws demo_q0 _ false busy_s4
      busy_reach_4).2⟩

/-- C8: for every valid configuration and positive draws, an iteration started
in a state of the run advances the clock by a non-negative amount and
decreases neither `area_num_in_queue` nor `busy_time`. -/
theorem integrals_never_decrease (cfg : Config) (draws : ℕ → ℚ) (q0 : Queue)
    (hist : List SimState) (r : Bool) (s s1 : SimState)
    (hv : cfg.valid) (hpos : ∀ k, 0 < draws k)
    (h : Reach cfg draws q0 hist r s)
    (hstep : (loop_body cfg draws s).state? = some s1) :
    0 ≤ s1.clock_time - s.clock_time ∧
      s.area_num_in_queue ≤ s1.area_num_in_queue ∧
      s.busy_time ≤ s1.busy_time := by
  have ht := reach_time_inv cfg draws q0 hv hpos hist r s h
  have hs := reach_struct_inv cfg draws q0 hist r s h
  have hmono := (time_inv_step cfg draws s s1 hv hpos hs.idle_inf ht hstep).2
  obtain ⟨e1, e2⟩ := step_integrals cfg draws s s1 hstep
  have hd : 0 ≤ s1.clock_time - s.clock_time := sub_nonneg.2 hmono
  refine ⟨hd, ?_, ?_⟩
  · rw [e1]
    have : 0 ≤ (s.queue_length : ℚ) * (s1.clock_time - s.clock_time) :=
      mul_nonneg (Nat.cast_nonneg _) hd
    linarith
  · rw [e2]
    cases s.server_busy <;> simp [hd]

/-- C8 at the departure of the `busy_cfg` run: the area grows from 0 to 3 and
the busy time from 1 to 4. -/
theorem integrals_never_decrease_witness :
    busy_cfg.valid ∧ (∀ k, 0 < busy_draws k) ∧
      Reach busy_cfg busy_draws demo_q0 [busy_s0, busy_s1] true busy_s2 ∧
      (loop_body busy_cfg busy_draws busy_s2).state? = some busy_s3 ∧
      0 ≤ busy_s3.clock_time - busy_s2.clock_time ∧
      busy_s2.area_num_in_queue ≤ busy_s3.area_num_in_queue ∧
      busy_s2.busy_time ≤ busy_s3.busy_time :=
  have hr : Reach busy_cfg busy_draws demo_q0 [busy_s0, busy_s1] true busy_s2 := busy_reach_2
  have hstep := next_state? busy_cfg busy_draws busy_s2 busy_s3 busy_body_2
  ⟨busy_cfg_valid, busy_draws_pos, hr, hstep,
    integrals_never_decrease busy_cfg busy_draws demo_q0 _ true busy_s2 busy_s3
      busy_cfg_valid busy_draws_pos hr hstep⟩

/-- C9, as the code has it: at every state of every run the number of
arrivals processed so far equals the number of departures processed plus
`queue_length` plus 1 if the server is busy; and while fewer than `2^31`
departures have been processed `customers_served` is that number of
departures, so the arrivals processed equal
`customers_served + queue_length + (1 if server_busy else 0)` and
`customers_served` is at most the number of arrivals processed. -/
theorem arrivals_are_conserved (cfg : Config) (draws : ℕ → ℚ) (q0 : Queue)
    (hist : List SimState) (r : Bool) (s : SimState)
    (h : Reach cfg draws q0 hist r s) :
    arrivals_processed cfg hist =
        departures_processed cfg hist + s.queue_length +
          (if s.server_busy then 1 else 0) ∧
      (departures_processed cfg hist < 2147483648 →
        s.customers_served = (departures_processed cfg hist : ℤ) ∧
          (arrivals_processed cfg hist : ℤ) =
            s.customers_served + (s.queue_length : ℤ) +
              (if s.server_busy then 1 else 0) ∧
          s.customers_served ≤ (arrivals_processed cfg hist : ℤ)) := by
  have hs := reach_struct_inv cfg draws q0 hist r s h
  have hc := hs.conserve
  refine ⟨hc, ?_⟩
  intro hlt
  have he := hs.served_eq hlt
  refine ⟨he, ?_, ?_⟩
  · rw [he, hc]
    cases s.server_busy <;> simp
  · rw [he, hc]
    have : (0 : ℕ) ≤ s.queue_length + (if s.server_busy then 1 else 0) := Nat.zero_le _
    omega

/-- C9 at the `busy_cfg` run after the departure: two arrivals, one served and
one in service. -/
theorem arrivals_are_conserved_witness :
    Reach busy_cfg busy_draws demo_q0 [busy_s0, busy_s1, busy_s2] true busy_s3 ∧
      departures_processed busy_cfg [busy_s0, busy_s1, busy_s2] < 2147483648 ∧
      (arrivals_processed busy_cfg [busy_s0, busy_s1, busy_s2] : ℤ) =
        busy_s3.customers_served + (busy_s3.queue_length : ℤ) +
          (if busy_s3.server_busy then 1 else 0) :=
  have hlt : departures_processed busy_cfg [busy_s0, busy_s1, busy_s2] < 2147483648 :=
    lt_of_le_of_lt (List.length_filter_le _ _) (by decide)
  ⟨busy_reach_3, hlt,
    ((arrivals_are_conserved busy_cfg busy_draws demo_q0 _ true busy_s3 busy_reach_3).2
      hlt).2.1⟩

/-! ## The run in which `customers_served` wraps -/

theorem overflow_idle_zero :
    overflow_idle 0 = init_state overflow_cfg overflow_draws demo_q0 := by
  norm_num [overflow_idle, init_state, exp_rand, overflow_cfg, overflow_draws, wrap32]

theorem overflow_body_idle (k : ℕ) (hk : k ≤ 2147483648) :
    loop_body overflow_cfg overflow_draws (overflow_idle k) = .next (overflow_busy k) := by
  have hq : (k : ℚ) ≤ 2147483648 := by exact_mod_cast hk
  have hsel : arrival_selected overflow_cfg (overflow_idle k) = true := by
    simp only [arrival_selected, overflow_idle, overflow_cfg, INF, decide_eq_true_eq]
    constructor <;> linarith
  unfold loop_body
  simp only [hsel, if_true]
  simp only [overflow_idle, overflow_busy, overflow_cfg, overflow_draws, exp_rand,
    Bool.not_false, if_true, Bool.false_eq_true, if_false, Outcome.next.injEq,
    SimState.mk.injEq]
  refine ⟨?_, ?_, ?_, ?_, ?_, ?_, ?_, ?_, ?_, ?_, ?_, ?_, ?_⟩ <;>
    first | exact True.intro | rfl | ring1

theorem overflow_body_busy (k : ℕ) (hk : k < 2147483648) :
    loop_body overflow_cfg overflow_draws (overflow_busy k) =
      .next (overflow_idle (k + 1)) := by
  have hq : (k : ℚ) < 2147483648 := by exact_mod_cast hk
  have hsel : arrival_selected overflow_cfg (overflow_busy k) = false := by
    simp only [arrival_selected, overflow_busy, overflow_cfg, decide_eq_false_iff_not, not_and,
      not_le]
    intro hc
    linarith
  have hinf : (overflow_busy k).next_departure ≠ INF := by
    simp only [overflow_busy, INF]
    intro hc
    linarith
  have htr : ¬ (overflow_busy k).next_departure > overflow_cfg.total_sim_time := by
    simp only [overflow_busy, overflow_cfg, not_lt]
    linarith
  have hql : ¬ (overflow_busy k).queue_length > 0 := by simp [overflow_busy]
  have hw : wrap32 (wrap32 (k : ℤ) + 1) = wrap32 ((k + 1 : ℕ) : ℤ) := by
    unfold wrap32
    push_cast
    omega
  unfold loop_body
  simp only [hsel, Bool.false_eq_true, if_false, hinf, htr, hql]
  simp only [overflow_idle, overflow_busy, Outcome.next.injEq, SimState.mk.injEq, if_true, hw,
    Nat.succ_ne_zero, if_false]
  refine ⟨?_, ?_, ?_, ?_, ?_, ?_, ?_, ?_, ?_, ?_, ?_, ?_, ?_⟩ <;>
    first | exact True.intro | rfl | (push_cast; ring1)

theorem overflow_reach (k : ℕ) (hk : k ≤ 2147483648) :
    Reach overflow_cfg overflow_draws demo_q0 (overflow_hist k) true (overflow_idle k) := by
  induction k with
  | zero =>
    rw [overflow_idle_zero]
    exact Reach.init
  | succ n ih =>
    have hn : n < 2147483648 := by omega
    have hq : (n : ℚ) < 2147483648 := by exact_mod_cast hn
    have h1 := Reach.next _ _ _ (ih (by omega))
      (by
        simp only [overflow_idle, overflow_cfg]
        split_ifs <;> linarith)
      (overflow_body_idle n (by omega))
    have h2 := Reach.next _ _ _ h1
      (by simp only [overflow_busy, overflow_cfg]; linarith)
      (overflow_body_busy n hn)
    simpa [overflow_hist] using h2

theorem overflow_arrivals (k : ℕ) (hk : k ≤ 2147483648) :
    arrivals_processed overflow_cfg (overflow_hist k) = k := by
  induction k with
  | zero => simp [overflow_hist, arrivals_processed]
  | succ n ih =>
    have hn : n < 2147483648 := by omega
    have hq : (n : ℚ) < 2147483648 := by exact_mod_cast hn
    have hsel1 : arrival_selected overflow_cfg (overflow_idle n) = true := by
      simp only [arrival_selected, overflow_idle, overflow_cfg, INF, decide_eq_true_eq]
      constructor <;> linarith
    have hsel2 : arrival_selected overflow_cfg (overflow_busy n) = false := by
      simp only [arrival_selected, overflow_busy, overflow_cfg, decide_eq_false_iff_not,
        not_and, not_le]
      intro hc
      linarith
    have e : overflow_hist (n + 1) =
        (overflow_hist n ++ [overflow_idle n]) ++ [overflow_busy n] := by
      simp [overflow_hist]
    rw [e, arrivals_processed_append, arrivals_processed_append, ih (by omega)]
    simp [hsel1, hsel2]

/-- C9 fails as stated: in the `overflow_cfg` run (rates 1 and 2, horizon
2147483658, every draw 1) the customers arrive at times 1, 2, 3, ... and each
leaves 1/2 later; after `2^31` arrivals and `2^31` departures the server is
idle, nobody waits, and `customers_served` has wrapped to `-2^31`. -/
theorem served_counter_wraps_counterexample :
    Reach overflow_cfg overflow_draws demo_q0 (overflow_hist 2147483648) true
        (overflow_idle 2147483648) ∧
      arrivals_processed overflow_cfg (overflow_hist 2147483648) = 2147483648 ∧
      (overflow_idle 2147483648).customers_served = -2147483648 ∧
      (arrivals_processed overflow_cfg (overflow_hist 2147483648) : ℤ) ≠
        (overflow_idle 2147483648).customers_served +
          ((overflow_idle 2147483648).queue_length : ℤ) +
          (if (overflow_idle 2147483648).server_busy then 1 else 0) := by
  have ha := overflow_arrivals 2147483648 (le_refl _)
  have hs : (overflow_idle 2147483648).customers_served = -2147483648 := by
    norm_num [overflow_idle, wrap32]
  refine ⟨overflow_reach 2147483648 (le_refl _), ha, hs, ?_⟩
  rw [ha, hs]
  norm_num [overflow_idle]

/-- C10: at every state of every run `queue_length` equals the `count` field of
the waiting-line buffer, which is the number of timestamps it holds. -/
theorem queue_length_mirrors_store (cfg : Config) (draws : ℕ → ℚ) (q0 : Queue)
    (hist : List SimState) (r : Bool) (s : SimState)
    (h : Reach cfg draws q0 hist r s) :
    s.queue_length = s.q.count ∧ s.queue_length = s.q.contents.length := by
  have hl := (reach_struct_inv cfg draws q0 hist r s h).len_eq
  exact ⟨hl, by rw [contents_length]; exact hl⟩

/-- C10 at the `busy_cfg` run after the second arrival: one customer waits and
the buffer holds one timestamp. -/
theorem queue_length_mirrors_store_witness :
    Reach busy_cfg busy_draws demo_q0 [busy_s0, busy_s1] true busy_s2 ∧
      busy_s2.queue_length = busy_s2.q.count ∧
      busy_s2.queue_length = busy_s2.q.contents.length :=
  ⟨busy_reach_2,
    queue_length_mirrors_store busy_cfg busy_draws demo_q0 _ true busy_s2 busy_reach_2⟩

/-! ## Further queue facts -/

/-- A run of calls without a fault keeps a well-formed queue well formed. -/
theorem run_ops_WF (ops : List QueueOp) :
    ∀ (q q1 : Queue) (outs : List ℚ), q.WF → run_ops ops q = .ok (q1, outs) → q1.WF := by
  induction ops with
  | nil =>
    intro q q1 outs hwf h
    simp only [run_ops, Except.ok.injEq, Prod.mk.injEq] at h
    rw [← h.1]
    exact hwf
  | cons op ops ih =>
    intro q q1 outs hwf h
    cases op with
    | enq v =>
      simp only [run_ops] at h
      cases he : enqueue q v with
      | error f => simp [he] at h
      | ok q2 =>
        simp only [he] at h
        exact ih q2 q1 outs (enqueue_spec q q2 v hwf he).1 h
    | deq =>
      simp only [run_ops] at h
      cases hd : dequeue q with
      | error f => simp [hd] at h
      | ok res =>
        obtain ⟨a, q2⟩ := res
        simp only [hd] at h
        cases hr : run_ops ops q2 with
        | error f => simp [hr] at h
        | ok res2 =>
          obtain ⟨q3, outs2⟩ := res2
          simp only [hr, Except.ok.injEq, Prod.mk.injEq] at h
          rw [← h.1]
          exact ih q2 q3 outs2 (dequeue_spec q q2 a hwf hd).1 hr

theorem enqueue_error_iff (q : Queue) (v : ℚ) :
    enqueue q v = .error .overflow ↔ q.count = MAX_QUEUE := by
  unfold enqueue is_full
  by_cases h : q.count = MAX_QUEUE <;> simp [h]

theorem dequeue_error_iff (q : Queue) :
    dequeue q = .error .underflow ↔ q.count = 0 := by
  unfold dequeue is_empty
  by_cases h : q.count = 0 <;> simp [h]

/-! ## Order of the timestamps in the waiting line -/

theorem order_inv_init (cfg : Config) (draws : ℕ → ℚ) (q0 : Queue) :
    OrderInv (init_state cfg draws q0) := by
  have hc : (init_state cfg draws q0).q.contents = [] := init_queue_contents q0
  refine ⟨?_, ?_, ?_⟩
  · rw [hc]; exact List.Pairwise.nil
  · rw [hc]; intro a ha; simp at ha
  · simp [init_state]

theorem order_inv_step (cfg : Config) (draws : ℕ → ℚ) (s s1 : SimState)
    (hwf : s.q.WF) (hclock : s.clock_time ≤ s1.clock_time)
    (hidle : s.server_busy = false → s.next_departure = INF)
    (hinv : OrderInv s) (h : (loop_body cfg draws s).state? = some s1) :
    OrderInv s1 ∧ s.total_wait_time ≤ s1.total_wait_time := by
  obtain ⟨hsorted, hle, hw⟩ := hinv
  unfold loop_body at h
  by_cases ha : arrival_selected cfg s = true
  · simp only [ha, if_true] at h
    cases hb : s.server_busy
    · simp only [hb, Bool.not_false, if_true, Outcome.state?, Option.some.injEq] at h
      subst h
      exact ⟨⟨hsorted, fun a hmem => le_trans (hle a hmem) hclock, hw⟩, le_refl _⟩
    · simp only [hb, Bool.not_true, Bool.false_eq_true, if_false] at h
      cases he : enqueue s.q s.next_arrival with
      | error f => simp [he, Outcome.state?] at h
      | ok q1 =>
        simp only [he, Outcome.state?, Option.some.injEq] at h
        subst h
        obtain ⟨_, hc1, _⟩ := enqueue_spec _ _ _ hwf he
        simp only at hclock
        refine ⟨⟨?_, ?_, hw⟩, le_refl _⟩
        · simp only [hc1]
          rw [List.pairwise_append]
          refine ⟨hsorted, List.pairwise_singleton _ _, ?_⟩
          intro a hmem b hb1
          rw [List.mem_singleton] at hb1
          rw [hb1]
          exact le_trans (hle a hmem) hclock
        · simp only [hc1]
          intro a hmem
          rw [List.mem_append, List.mem_singleton] at hmem
          rcases hmem with hmem | hmem
          · exact le_trans (hle a hmem) hclock
          · rw [hmem]
  · simp only [ha, Bool.false_eq_true, if_false] at h
    by_cases hinf : s.next_departure = INF
    · simp only [hinf, if_true, Outcome.state?, Option.some.injEq] at h
      subst h
      exact ⟨⟨hsorted, hle, hw⟩, le_refl _⟩
    · simp only [hinf, if_false] at h
      have hb : s.server_busy = true := by
        cases hb : s.server_busy
        · exact absurd (hidle hb) hinf
        · rfl
      by_cases htr : s.next_departure > cfg.total_sim_time
      · simp only [htr, if_true, Outcome.state?, Option.some.injEq] at h
        subst h
        exact ⟨⟨hsorted, fun a hmem => le_trans (hle a hmem) hclock, hw⟩, le_refl _⟩
      · simp only [htr, if_false] at h
        by_cases hq : s.queue_length > 0
        · simp only [hq, if_true] at h
          cases hd : dequeue s.q with
          | error f => simp [hd, Outcome.state?] at h
          | ok res =>
            obtain ⟨a, q1⟩ := res
            simp only [hd, Outcome.state?, Option.some.injEq] at h
            subst h
            obtain ⟨_, hc1, _⟩ := dequeue_spec _ _ _ hwf hd
            simp only at hclock
            rw [hc1] at hsorted hle
            have ha_le : a ≤ s.clock_time := hle a (List.mem_cons_self _ _)
            have hwait : 0 ≤ s.next_departure - a := by linarith
            refine ⟨⟨(List.pairwise_cons.1 hsorted).2, ?_, ?_⟩, ?_⟩
            · intro b hmem
              exact le_trans (hle b (List.mem_cons_of_mem _ hmem)) hclock
            · simp only; linarith
            · simp only; linarith
        · simp only [hq, if_false, Outcome.state?, Option.some.injEq] at h
          subst h
          exact ⟨⟨hsorted, fun a hmem => le_trans (hle a hmem) hclock, hw⟩, le_refl _⟩

theorem reach_order_inv (cfg : Config) (draws : ℕ → ℚ) (q0 : Queue)
    (hv : cfg.valid) (hpos : ∀ k, 0 < draws k)
    (hist : List SimState) (r : Bool) (s : SimState)
    (h : Reach cfg draws q0 hist r s) : OrderInv s := by
  induction h with
  | init => exact order_inv_init cfg draws q0
  | next hist s s1 hr _ hb ih =>
    have hs := reach_struct_inv cfg draws q0 hist true s hr
    have ht := reach_time_inv cfg draws q0 hv hpos hist true s hr
    have hstep := next_state? _ _ _ _ hb
    exact (order_inv_step cfg draws s s1 hs.wf
      (time_inv_step cfg draws s s1 hv hpos hs.idle_inf ht hstep).2
      hs.idle_inf ih hstep).1
  | stop hist s s1 hr _ hb ih =>
    have hs := reach_struct_inv cfg draws q0 hist true s hr
    have ht := reach_time_inv cfg draws q0 hv hpos hist true s hr
    have hstep := stop_state? _ _ _ _ hb
    exact (order_inv_step cfg draws s s1 hs.wf
      (time_inv_step cfg draws s s1 hv hpos hs.idle_inf ht hstep).2
      hs.idle_inf ih hstep).1

/-! ## No underflow -/

theorem loop_body_no_underflow (cfg : Config) (draws : ℕ → ℚ) (s : SimState)
    (hlen : s.queue_length = s.q.count) :
    loop_body cfg draws s ≠ .fault .underflow := by
  unfold loop_body
  by_cases ha : arrival_selected cfg s = true
  · simp only [ha, if_true]
    cases hb : s.server_busy
    · simp
    · simp only [Bool.not_true, Bool.false_eq_true, if_false]
      by_cases hfull : s.q.count = MAX_QUEUE
      · have : enqueue s.q s.next_arrival = .error .overflow := (enqueue_error_iff _ _).2 hfull
        simp [this]
      · obtain ⟨q1, hq1⟩ := (enqueue_ok_iff s.q s.next_arrival).2 hfull
        simp [hq1]
  · simp only [ha, Bool.false_eq_true, if_false]
    by_cases hinf : s.next_departure = INF
    · simp [hinf]
    · simp only [hinf, if_false]
      by_cases htr : s.next_departure > cfg.total_sim_time
      · simp [htr]
      · simp only [htr, if_false]
        by_cases hq : s.queue_length > 0
        · simp only [hq, if_true]
          have hne : s.q.count ≠ 0 := by omega
          have hd : dequeue s.q = .ok (s.q.data s.q.front,
              { data := s.q.data, front := (s.q.front + 1) % MAX_QUEUE, rear := s.q.rear,
                count := s.q.count - 1 }) := by
            simp [dequeue, is_empty, hne]
          simp [hd]
        · simp [hq]

theorem sim_loop_no_underflow (cfg : Config) (draws : ℕ → ℚ) (q0 : Queue) (fuel : ℕ) :
    ∀ (hist : List SimState) (s : SimState), Reach cfg draws q0 hist true s →
      sim_loop cfg draws fuel s ≠ some (.error .underflow) := by
  induction fuel with
  | zero => intro hist s _; simp [sim_loop]
  | succ n ih =>
    intro hist s hr
    unfold sim_loop
    by_cases hc : s.clock_time < cfg.total_sim_time
    · simp only [hc, if_true]
      cases hb : loop_body cfg draws s with
      | next s2 => exact ih _ s2 (Reach.next hist s s2 hr hc hb)
      | stop s2 => simp
      | fault f =>
        have hne := loop_body_no_underflow cfg draws s
          (reach_struct_inv cfg draws q0 hist true s hr).len_eq
        rw [hb] at hne
        simp only [ne_eq, Option.some.injEq, Except.error.injEq]
        intro hf
        exact hne (by rw [hf])
    · simp [hc]

/-! ## Where an iteration leaves the clock -/

/-- The four ways an iteration that produces a state sets the clock: to the
arrival time, not at all (no-departure `break`), to the horizon (truncation),
or to the departure time. -/
theorem step_clock_cases (cfg : Config) (draws : ℕ → ℚ) (s s1 : SimState)
    (h : (loop_body cfg draws s).state? = some s1) :
    (arrival_selected cfg s = true ∧ s1.clock_time = s.next_arrival) ∨
      (arrival_selected cfg s = false ∧ s.next_departure = INF ∧ s1 = s) ∨
      (arrival_selected cfg s = false ∧ s.next_departure ≠ INF ∧
        s.next_departure > cfg.total_sim_time ∧ s1.clock_time = cfg.total_sim_time) ∨
      (arrival_selected cfg s = false ∧ s.next_departure ≠ INF ∧
        ¬ s.next_departure > cfg.total_sim_time ∧ s1.clock_time = s.next_departure) := by
  unfold loop_body at h
  by_cases ha : arrival_selected cfg s = true
  · left
    simp only [ha, if_true] at h
    cases hb : s.server_busy
    · simp only [hb, Bool.not_false, if_true, Outcome.state?, Option.some.injEq] at h
      subst h
      exact ⟨ha, rfl⟩
    · simp only [hb, Bool.not_true, Bool.false_eq_true, if_false] at h
      cases he : enqueue s.q s.next_arrival with
      | error f => simp [he, Outcome.state?] at h
      | ok q1 =>
        simp only [he, Outcome.state?, Option.some.injEq] at h
        subst h
        exact ⟨ha, rfl⟩
  · right
    have hsel : arrival_selected cfg s = false := by simpa using ha
    simp only [ha, Bool.false_eq_true, if_false] at h
    by_cases hinf : s.next_departure = INF
    · left
      simp only [hinf, if_true, Outcome.state?, Option.some.injEq] at h
      exact ⟨hsel, hinf, h.symm⟩
    · right
      simp only [hinf, if_false] at h
      by_cases htr : s.next_departure > cfg.total_sim_time
      · left
        simp only [htr, if_true, Outcome.state?, Option.some.injEq] at h
        subst h
        exact ⟨hsel, hinf, htr, rfl⟩
      · right
        simp only [htr, if_false] at h
        by_cases hq : s.queue_length > 0
        · simp only [hq, if_true] at h
          cases hd : dequeue s.q with
          | error f => simp [hd, Outcome.state?] at h
          | ok res =>
            obtain ⟨a, q1⟩ := res
            simp only [hd, Outcome.state?, Option.some.injEq] at h
            subst h
            exact ⟨hsel, hinf, htr, rfl⟩
        · simp only [hq, if_false, Outcome.state?, Option.some.injEq] at h
          subst h
          exact ⟨hsel, hinf, htr, rfl⟩

/-! ## Further runs, step by step -/

theorem idle_reach_2 :
    Reach idle_cfg idle_draws demo_q0 [idle_s0, idle_s1] true idle_s2 := by
  have h0 : Reach idle_cfg idle_draws demo_q0 [] true idle_s0 := Reach.init
  have h1 := Reach.next [] idle_s0 idle_s1 h0
    (by norm_num [idle_s0, init_state, idle_cfg]) idle_body_0
  exact Reach.next _ idle_s1 idle_s2 h1 (by norm_num [idle_s1, idle_cfg]) idle_body_1

theorem tie_cfg_valid : tie_cfg.valid := by
  norm_num [Config.valid, tie_cfg]

theorem tie_draws_pos : ∀ k, 0 < tie_draws k := by
  intro k
  unfold tie_draws
  split_ifs <;> norm_num

theorem tie_body_0 : loop_body tie_cfg tie_draws tie_s0 = .next tie_s1 := by
  norm_num [loop_body, tie_s0, tie_s1, init_state, arrival_selected, exp_rand, INF, tie_cfg,
    tie_draws]

theorem tie_body_1 : loop_body tie_cfg tie_draws tie_s1 = .next tie_s2 := by
  norm_num [loop_body, tie_s1, tie_s2, arrival_selected, exp_rand, INF, tie_cfg, tie_draws,
    enqueue, is_full, init_queue, demo_q0, MAX_QUEUE]

theorem tie_body_2 : loop_body tie_cfg tie_draws tie_s2 = .next tie_s3 := by
  norm_num [loop_body, tie_s2, tie_s3, arrival_selected, exp_rand, INF, tie_cfg, tie_draws,
    dequeue, is_empty, demo_q0, MAX_QUEUE, wrap32]

theorem tie_reach_2 : Reach tie_cfg tie_draws demo_q0 [tie_s0, tie_s1] true tie_s2 := by
  have h0 : Reach tie_cfg tie_draws demo_q0 [] true tie_s0 := Reach.init
  have h1 := Reach.next [] tie_s0 tie_s1 h0
    (by norm_num [tie_s0, init_state, tie_cfg]) tie_body_0
  exact Reach.next _ tie_s1 tie_s2 h1 (by norm_num [tie_s1, tie_cfg]) tie_body_1

theorem sentinel_cfg_valid : sentinel_cfg.valid := by
  norm_num [Config.valid, sentinel_cfg]

theorem sentinel_draws_pos : ∀ k, 0 < sentinel_draws k := by
  intro k
  unfold sentinel_draws
  split_ifs <;> norm_num

theorem sentinel_body_0 :
    loop_body sentinel_cfg sentinel_draws sentinel_s0 = .next sentinel_s1 := by
  norm_num [loop_body, sentinel_s0, sentinel_s1, init_state, arrival_selected, exp_rand, INF,
    sentinel_cfg, sentinel_draws]

theorem sentinel_reach_1 :
    Reach sentinel_cfg sentinel_draws demo_q0 [sentinel_s0] true sentinel_s1 :=
  Reach.next [] sentinel_s0 sentinel_s1 Reach.init
    (by norm_num [sentinel_s0, init_state, sentinel_cfg]) sentinel_body_0

/-! ## The claims, continued -/

/-- C11: at every state of every run, for every configuration and all draws,
the loop body does not end in the underflow exit: when departure processing
calls `dequeue` (`queue_length > 0`) the buffer is not empty and the call
succeeds; so neither the loop nor `main` ever ends with `Underflow`. -/
theorem underflow_is_unreachable (cfg : Config) (draws : ℕ → ℚ) (q0 : Queue)
    (hist : List SimState) (r : Bool) (s : SimState)
    (h : Reach cfg draws q0 hist r s) :
    loop_body cfg draws s ≠ .fault .underflow ∧
      (s.queue_length > 0 → ∃ a q1, dequeue s.q = .ok (a, q1)) ∧
      (∀ fuel, sim_loop cfg draws fuel (init_state cfg draws q0) ≠
        some (.error .underflow)) ∧
      (∀ fuel, main cfg draws q0 fuel ≠ some (.fault .underflow)) := by
  have hlen := (reach_struct_inv cfg draws q0 hist r s h).len_eq
  have hloop : ∀ fuel, sim_loop cfg draws fuel (init_state cfg draws q0) ≠
      some (.error .underflow) :=
    fun fuel => sim_loop_no_underflow cfg draws q0 fuel [] _ Reach.init
  refine ⟨loop_body_no_underflow cfg draws s hlen, ?_, hloop, ?_⟩
  · intro hq
    have hne : s.q.count ≠ 0 := by omega
    exact ⟨s.q.data s.q.front,
      { data := s.q.data, front := (s.q.front + 1) % MAX_QUEUE, rear := s.q.rear,
        count := s.q.count - 1 }, by simp [dequeue, is_empty, hne]⟩
  · intro fuel
    unfold main
    by_cases hrej : input_rejected cfg = true
    · simp [hrej]
    · simp only [hrej, Bool.false_eq_true, if_false]
      cases hl : sim_loop cfg draws fuel (init_state cfg draws q0) with
      | none => simp
      | some res =>
        cases res with
        | ok s2 => simp
        | error f =>
          simp only [ne_eq, Option.some.injEq, Exit.fault.injEq]
          intro hf
          exact hloop fuel (by rw [hl, hf])

/-- C11 at the `busy_cfg` run with one customer waiting: the body does not
underflow. -/
theorem underflow_is_unreachable_witness :
    Reach busy_cfg busy_draws demo_q0 [busy_s0, busy_s1] true busy_s2 ∧
      loop_body busy_cfg busy_draws busy_s2 ≠ .fault .underflow :=
  ⟨busy_reach_2,
    (underflow_is_unreachable busy_cfg busy_draws demo_q0 _ true busy_s2 busy_reach_2).1⟩

/-- C12: `enqueue` ends in the overflow exit exactly when `count` is
`MAX_QUEUE`; for every other store it succeeds, writes the value at `rear`,
and increases `count` by exactly 1, and on a well-formed store the contents
become the old contents followed by the value. In the loop an arrival that
finds the server busy therefore either ends the run with `Overflow` or is
added to the waiting line. -/
theorem enqueue_overflow_iff_full (q : Queue) (v : ℚ) :
    (enqueue q v = .error .overflow ↔ q.count = MAX_QUEUE) ∧
      (q.count ≠ MAX_QUEUE →
        ∃ q1, enqueue q v = .ok q1 ∧ q1.count = q.count + 1 ∧ q1.data q.rear = v ∧
          (q.WF → q1.contents = q.contents ++ [v])) ∧
      (∀ cfg draws s, s.q = q → arrival_selected cfg s = true → s.server_busy = true →
        loop_body cfg draws s = .fault .overflow ∨
          ∃ s1, loop_body cfg draws s = .next s1 ∧
            s1.queue_length = s.queue_length + 1 ∧ s1.q.count = q.count + 1) := by
  refine ⟨enqueue_error_iff q v, ?_, ?_⟩
  · intro hne
    obtain ⟨q1, hq1⟩ := (enqueue_ok_iff q v).2 hne
    refine ⟨q1, hq1, ?_, ?_, fun hwf => (enqueue_spec q q1 v hwf hq1).2.1⟩
    · unfold enqueue is_full at hq1
      simp only [beq_iff_eq, hne, if_false, Except.ok.injEq] at hq1
      rw [← hq1]
    · unfold enqueue is_full at hq1
      simp only [beq_iff_eq, hne, if_false, Except.ok.injEq] at hq1
      rw [← hq1]
      simp
  · intro cfg draws s hsq hsel hbusy
    subst hsq
    unfold loop_body
    simp only [hsel, if_true, hbusy, Bool.not_true, Bool.false_eq_true, if_false]
    by_cases hfull : s.q.count = MAX_QUEUE
    · left
      rw [(enqueue_error_iff s.q s.next_arrival).2 hfull]
    · right
      obtain ⟨q1, hq1⟩ := (enqueue_ok_iff s.q s.next_arrival).2 hfull
      have hc : q1.count = s.q.count + 1 := by
        unfold enqueue is_full at hq1
        simp only [beq_iff_eq, hfull, if_false, Except.ok.injEq] at hq1
        rw [← hq1]
      rw [hq1]
      exact ⟨_, rfl, rfl, hc⟩

/-- C12 at a queue holding one value: the enqueue succeeds and appends. -/
theorem enqueue_overflow_iff_full_witness :
    demo_q.count ≠ MAX_QUEUE ∧
      ∃ q1, enqueue demo_q 4 = .ok q1 ∧ q1.count = demo_q.count + 1 ∧
        q1.data demo_q.rear = 4 ∧ (demo_q.WF → q1.contents = demo_q.contents ++ [4]) :=
  have hne : demo_q.count ≠ MAX_QUEUE := by decide
  ⟨hne, (enqueue_overflow_iff_full demo_q 4).2.1 hne⟩

/-- C13: `dequeue` ends in the underflow exit exactly when `count` is 0; for
every other store it succeeds, returns the value at `front`, and decreases
`count` by exactly 1, and on a well-formed store the value returned is the
head of the contents and the rest is what remains. -/
theorem dequeue_underflow_iff_empty (q : Queue) :
    (dequeue q = .error .underflow ↔ q.count = 0) ∧
      (q.count ≠ 0 →
        ∃ q1, dequeue q = .ok (q.data q.front, q1) ∧ q1.count + 1 = q.count ∧
          (q.WF → q.contents = q.data q.front :: q1.contents)) := by
  refine ⟨dequeue_error_iff q, ?_⟩
  intro hne
  have hd : dequeue q = .ok (q.data q.front,
      { data := q.data, front := (q.front + 1) % MAX_QUEUE, rear := q.rear,
        count := q.count - 1 }) := by
    simp [dequeue, is_empty, hne]
  refine ⟨_, hd, ?_, fun hwf => (dequeue_spec q _ _ hwf hd).2.1⟩
  simp only
  omega

/-- C13 at a queue holding one value: the dequeue succeeds. -/
theorem dequeue_underflow_iff_empty_witness :
    demo_q.count ≠ 0 ∧
      ∃ q1, dequeue demo_q = .ok (demo_q.data demo_q.front, q1) ∧
        q1.count + 1 = demo_q.count ∧
        (demo_q.WF → demo_q.contents = demo_q.data demo_q.front :: q1.contents) :=
  have hne : demo_q.count ≠ 0 := by decide
  ⟨hne, (dequeue_underflow_iff_empty demo_q).2 hne⟩

/-- C14: for every generator output `r` with `r ≤ RAND_MAX` the value
`(r + 1) / (RAND_MAX + 2)` of `uniform_rand` is strictly between 0 and 1, and
for every rate `> 0` the value `-log(U) / rate` of `exp_rand` is strictly
positive. -/
theorem uniform_in_open_unit_interval (r RAND_MAX : ℕ) (hr : r ≤ RAND_MAX) :
    0 < uniform_rand r RAND_MAX ∧ uniform_rand r RAND_MAX < 1 ∧
      ∀ rate : ℝ, 0 < rate → 0 < exp_rand_real ((uniform_rand r RAND_MAX : ℚ) : ℝ) rate := by
  have hden : (0 : ℚ) < (RAND_MAX : ℚ) + 2 := by positivity
  have hnum : (0 : ℚ) < (r : ℚ) + 1 := by positivity
  have hpos : 0 < uniform_rand r RAND_MAX := div_pos hnum hden
  have hlt : uniform_rand r RAND_MAX < 1 := by
    unfold uniform_rand
    rw [div_lt_one hden]
    have : (r : ℚ) ≤ (RAND_MAX : ℚ) := by exact_mod_cast hr
    linarith
  refine ⟨hpos, hlt, ?_⟩
  intro rate hrate
  unfold exp_rand_real
  have hposR : (0 : ℝ) < ((uniform_rand r RAND_MAX : ℚ) : ℝ) := by exact_mod_cast hpos
  have hltR : ((uniform_rand r RAND_MAX : ℚ) : ℝ) < 1 := by exact_mod_cast hlt
  have hlog : Real.log ((uniform_rand r RAND_MAX : ℚ) : ℝ) < 0 := Real.log_neg hposR hltR
  exact div_pos (by linarith) hrate

/-- C14 at the largest output `r = RAND_MAX = 32767`. -/
theorem uniform_in_open_unit_interval_witness :
    (32767 : ℕ) ≤ 32767 ∧ 0 < uniform_rand 32767 32767 ∧ uniform_rand 32767 32767 < 1 ∧
      0 < exp_rand_real ((uniform_rand 32767 32767 : ℚ) : ℝ) 1 :=
  have h := uniform_in_open_unit_interval 32767 32767 (le_refl _)
  ⟨le_refl _, h.1, h.2.1, h.2.2 1 one_pos⟩

/-- C15: `main` ends with the refusal, whatever the draws, the queue memory and
the iteration bound (nothing of the simulation is evaluated), if and only if
one of `arrival_rate`, `service_rate`, `total_sim_time` is `≤ 0`; when all
three are positive `main` runs the loop from the initial state. -/
theorem refused_iff_nonpositive_input (cfg : Config) (draws : ℕ → ℚ) (q0 : Queue)
    (fuel : ℕ) :
    (main cfg draws q0 fuel = some .rejected ↔
        (cfg.arrival_rate ≤ 0 ∨ cfg.service_rate ≤ 0 ∨ cfg.total_sim_time ≤ 0)) ∧
      (cfg.valid ↔
        ¬ (cfg.arrival_rate ≤ 0 ∨ cfg.service_rate ≤ 0 ∨ cfg.total_sim_time ≤ 0)) ∧
      (cfg.valid →
        main cfg draws q0 fuel =
          match sim_loop cfg draws fuel (init_state cfg draws q0) with
          | none => none
          | some (.error f) => some (.fault f)
          | some (.ok s) => some (.completed (final_statistics s))) := by
  have hvalid : cfg.valid ↔
      ¬ (cfg.arrival_rate ≤ 0 ∨ cfg.service_rate ≤ 0 ∨ cfg.total_sim_time ≤ 0) := by
    simp only [Config.valid, not_or, not_le]
  refine ⟨?_, hvalid, ?_⟩
  · by_cases hbad : cfg.arrival_rate ≤ 0 ∨ cfg.service_rate ≤ 0 ∨ cfg.total_sim_time ≤ 0
    · have hrej : input_rejected cfg = true := by
        simp only [input_rejected, decide_eq_true_eq]; exact hbad
      simp [main, hrej, hbad]
    · have hrej : input_rejected cfg = false := by
        simp only [input_rejected, decide_eq_false_iff_not]; exact hbad
      simp only [main, hrej, Bool.false_eq_true, if_false, hbad, iff_false]
      cases sim_loop cfg draws fuel (init_state cfg draws q0) with
      | none => simp
      | some res => cases res <;> simp
  · intro hv
    have hrej : input_rejected cfg = false := by
      simp only [input_rejected, decide_eq_false_iff_not]; exact hvalid.1 hv
    simp only [main, hrej, Bool.false_eq_true, if_false]

/-- C15 at a configuration with a zero arrival rate: refused with no iteration
allowed. -/
theorem refused_iff_nonpositive_input_witness :
    main { arrival_rate := 0, service_rate := 1, total_sim_time := 1 } late_draws demo_q0 0 =
      some .rejected :=
  (refused_iff_nonpositive_input { arrival_rate := 0, service_rate := 1, total_sim_time := 1 }
    late_draws demo_q0 0).1.2 (Or.inl (le_refl _))

/-- C16, as the code has it: in every state with the clock below the horizon
in which the arrival is not selected and `next_departure` is not the `INF`
sentinel and exceeds the horizon, the iteration adds
`queue_length * (horizon - clock)` to `area_num_in_queue`, adds
`horizon - clock` to `busy_time` if the server is busy, sets the clock to the
horizon and leaves the loop, with every other variable unchanged. -/
theorem truncation_at_horizon (cfg : Config) (draws : ℕ → ℚ) (s : SimState) (fuel : ℕ)
    (hclock : s.clock_time < cfg.total_sim_time)
    (hsel : arrival_selected cfg s = false)
    (hsched : s.next_departure ≠ INF)
    (hlate : s.next_departure > cfg.total_sim_time) :
    ∃ s1, loop_body cfg draws s = .stop s1 ∧
      sim_loop cfg draws (fuel + 1) s = some (.ok s1) ∧
      s1.area_num_in_queue =
        s.area_num_in_queue + (s.queue_length : ℚ) * (cfg.total_sim_time - s.clock_time) ∧
      s1.busy_time =
        s.busy_time + (if s.server_busy then cfg.total_sim_time - s.clock_time else 0) ∧
      s1.clock_time = cfg.total_sim_time ∧
      s1.server_busy = s.server_busy ∧ s1.queue_length = s.queue_length ∧ s1.q = s.q ∧
      s1.max_queue_length = s.max_queue_length ∧
      s1.customers_served = s.customers_served ∧
      s1.total_wait_time = s.total_wait_time ∧
      s1.next_arrival = s.next_arrival ∧ s1.next_departure = s.next_departure ∧
      s1.draws_used = s.draws_used := by
  have hbody : loop_body cfg draws s = .stop
      { s with
        area_num_in_queue :=
          s.area_num_in_queue + (s.queue_length : ℚ) * (cfg.total_sim_time - s.clock_time)
        busy_time :=
          if s.server_busy then s.busy_time + (cfg.total_sim_time - s.clock_time)
          else s.busy_time
        clock_time := cfg.total_sim_time } := by
    unfold loop_body
    simp only [hsel, Bool.false_eq_true, if_false, hsched, hlate, if_true]
  refine ⟨_, hbody, ?_, rfl, ?_, rfl, rfl, rfl, rfl, rfl, rfl, rfl, rfl, rfl, rfl⟩
  · unfold sim_loop
    simp only [hclock, if_true, hbody]
  · cases s.server_busy <;> simp

/-- C16 at the last iteration of the `busy_cfg` run: the departure at 105 is
past the horizon 6, the clock goes from 5 to 6 and the busy time from 4 to 5. -/
theorem truncation_at_horizon_witness :
    busy_s3.clock_time < busy_cfg.total_sim_time ∧
      arrival_selected busy_cfg busy_s3 = false ∧
      busy_s3.next_departure ≠ INF ∧
      busy_s3.next_departure > busy_cfg.total_sim_time ∧
      ∃ s1, loop_body busy_cfg busy_draws busy_s3 = .stop s1 ∧
        sim_loop busy_cfg busy_draws 1 busy_s3 = some (.ok s1) ∧
        s1.area_num_in_queue =
          busy_s3.area_num_in_queue +
            (busy_s3.queue_length : ℚ) * (busy_cfg.total_sim_time - busy_s3.clock_time) ∧
        s1.busy_time =
          busy_s3.busy_time +
            (if busy_s3.server_busy then busy_cfg.total_sim_time - busy_s3.clock_time
              else 0) ∧
        s1.clock_time = busy_cfg.total_sim_time ∧
        s1.server_busy = busy_s3.server_busy ∧ s1.queue_length = busy_s3.queue_length ∧
        s1.q = busy_s3.q ∧
        s1.max_queue_length = busy_s3.max_queue_length ∧
        s1.customers_served = busy_s3.customers_served ∧
        s1.total_wait_time = busy_s3.total_wait_time ∧
        s1.next_arrival = busy_s3.next_arrival ∧
        s1.next_departure = busy_s3.next_departure ∧
        s1.draws_used = busy_s3.draws_used :=
  have h1 : busy_s3.clock_time < busy_cfg.total_sim_time := by
    norm_num [busy_s3, busy_cfg]
  have h2 : arrival_selected busy_cfg busy_s3 = false := by
    norm_num [arrival_selected, busy_s3, busy_cfg]
  have h3 : busy_s3.next_departure ≠ INF := by norm_num [busy_s3, INF]
  have h4 : busy_s3.next_departure > busy_cfg.total_sim_time := by
    norm_num [busy_s3, busy_cfg]
  ⟨h1, h2, h3, h4, truncation_at_horizon busy_cfg busy_draws busy_s3 0 h1 h2 h3 h4⟩

/-- C16 fails as stated: in the state of the `idle_cfg` run after the departure
at 3/2 the clock is below the horizon 10, the arrival (at 21) is not selected
and the departure timestamp `next_departure = INF` exceeds the horizon, yet
the iteration leaves the loop with the state unchanged, the clock still at
3/2. -/
theorem idle_stop_counterexample :
    Reach idle_cfg idle_draws demo_q0 [idle_s0, idle_s1] true idle_s2 ∧
      idle_s2.clock_time < idle_cfg.total_sim_time ∧
      arrival_selected idle_cfg idle_s2 = false ∧
      min idle_s2.next_arrival idle_s2.next_departure > idle_cfg.total_sim_time ∧
      idle_s2.next_departure > idle_cfg.total_sim_time ∧
      loop_body idle_cfg idle_draws idle_s2 = .stop idle_s2 ∧
      idle_s2.clock_time ≠ idle_cfg.total_sim_time := by
  refine ⟨idle_reach_2, ?_, ?_, ?_, ?_, idle_body_2, ?_⟩
  · norm_num [idle_s2, idle_cfg]
  · norm_num [arrival_selected, idle_s2, idle_cfg, INF]
  · norm_num [idle_s2, idle_cfg, INF]
  · norm_num [idle_s2, idle_cfg, INF]
  · norm_num [idle_s2, idle_cfg]

/-- C17, as the code has it: for every valid configuration and positive draws,
an iteration started in a state of the run with the clock below the horizon
never decreases the clock: an arrival iteration sets it to `next_arrival`, a
departure iteration to `next_departure`, the truncation to the horizon, which
is strictly later, and the no-departure `break` leaves the state as it is. So
the clock is left unchanged only at the no-departure `break` or when the event
processed is scheduled at the current clock value. -/
theorem clock_advance_per_iteration (cfg : Config) (draws : ℕ → ℚ) (q0 : Queue)
    (hist : List SimState) (r : Bool) (s s1 : SimState)
    (hv : cfg.valid) (hpos : ∀ k, 0 < draws k)
    (h : Reach cfg draws q0 hist r s)
    (hclock : s.clock_time < cfg.total_sim_time)
    (hstep : (loop_body cfg draws s).state? = some s1) :
    s.clock_time ≤ s1.clock_time ∧
      (arrival_selected cfg s = true → s1.clock_time = s.next_arrival) ∧
      (arrival_selected cfg s = false → s.next_departure = INF → s1 = s) ∧
      (arrival_selected cfg s = false → s.next_departure ≠ INF →
        s.next_departure > cfg.total_sim_time →
        s1.clock_time = cfg.total_sim_time ∧ s.clock_time < s1.clock_time) ∧
      (arrival_selected cfg s = false → s.next_departure ≠ INF →
        ¬ s.next_departure > cfg.total_sim_time → s1.clock_time = s.next_departure) ∧
      (s1.clock_time = s.clock_time →
        (arrival_selected cfg s = true ∧ s.next_arrival = s.clock_time) ∨
          (arrival_selected cfg s = false ∧
            (s.next_departure = INF ∨ s.next_departure = s.clock_time))) := by
  have ht := reach_time_inv cfg draws q0 hv hpos hist r s h
  have hs := reach_struct_inv cfg draws q0 hist r s h
  have hmono := (time_inv_step cfg draws s s1 hv hpos hs.idle_inf ht hstep).2
  have hcases := step_clock_cases cfg draws s s1 hstep
  refine ⟨hmono, ?_, ?_, ?_, ?_, ?_⟩
  · intro hsel
    rcases hcases with ⟨_, hc⟩ | ⟨hf, _⟩ | ⟨hf, _⟩ | ⟨hf, _⟩
    · exact hc
    · rw [hsel] at hf; exact absurd hf (by decide)
    · rw [hsel] at hf; exact absurd hf (by decide)
    · rw [hsel] at hf; exact absurd hf (by decide)
  · intro hsel hinf
    rcases hcases with ⟨ht1, _⟩ | ⟨_, _, he⟩ | ⟨_, hne, _⟩ | ⟨_, hne, _⟩
    · rw [hsel] at ht1; exact absurd ht1 (by decide)
    · exact he
    · exact absurd hinf hne
    · exact absurd hinf hne
  · intro hsel hne hlate
    rcases hcases with ⟨ht1, _⟩ | ⟨_, hinf, _⟩ | ⟨_, _, _, hc⟩ | ⟨_, _, hnl, _⟩
    · rw [hsel] at ht1; exact absurd ht1 (by decide)
    · exact absurd hinf hne
    · exact ⟨hc, by rw [hc]; exact hclock⟩
    · exact absurd hlate hnl
  · intro hsel hne hnl
    rcases hcases with ⟨ht1, _⟩ | ⟨_, hinf, _⟩ | ⟨_, _, hlate, _⟩ | ⟨_, _, _, hc⟩
    · rw [hsel] at ht1; exact absurd ht1 (by decide)
    · exact absurd hinf hne
    · exact absurd hlate hnl
    · exact hc
  · intro heq
    rcases hcases with ⟨hsel, hc⟩ | ⟨hf, hinf, _⟩ | ⟨_, _, _, hc⟩ | ⟨hf, _, _, hc⟩
    · exact Or.inl ⟨hsel, by rw [← hc, heq]⟩
    · exact Or.inr ⟨hf, Or.inl hinf⟩
    · rw [hc] at heq
      exact absurd heq (ne_of_gt hclock)
    · exact Or.inr ⟨hf, Or.inr (by rw [← hc, heq])⟩

/-- C17 at the first iteration of the `tie_cfg` run: the arrival moves the
clock from 0 to `next_arrival = 1`. -/
theorem clock_advance_per_iteration_witness :
    tie_cfg.valid ∧ (∀ k, 0 < tie_draws k) ∧
      Reach tie_cfg tie_draws demo_q0 [] true tie_s0 ∧
      tie_s0.clock_time < tie_cfg.total_sim_time ∧
      (loop_body tie_cfg tie_draws tie_s0).state? = some tie_s1 ∧
      tie_s0.clock_time ≤ tie_s1.clock_time ∧
      (arrival_selected tie_cfg tie_s0 = true → tie_s1.clock_time = tie_s0.next_arrival) :=
  have hc : tie_s0.clock_time < tie_cfg.total_sim_time := by
    norm_num [tie_s0, init_state, tie_cfg]
  have hstep := next_state? tie_cfg tie_draws tie_s0 tie_s1 tie_body_0
  have h := clock_advance_per_iteration tie_cfg tie_draws demo_q0 [] true tie_s0 tie_s1
    tie_cfg_valid tie_draws_pos Reach.init hc hstep
  ⟨tie_cfg_valid, tie_draws_pos, Reach.init, hc, hstep, h.1, h.2.1⟩

/-- C17 fails as stated: in the `tie_cfg` run the second arrival and the first
departure are both scheduled at time 2; the arrival is processed first, and
the departure iteration that follows starts and ends with the clock at 2. -/
theorem zero_advance_counterexample :
    tie_cfg.valid ∧ (∀ k, 0 < tie_draws k) ∧
      Reach tie_cfg tie_draws demo_q0 [tie_s0, tie_s1] true tie_s2 ∧
      tie_s2.clock_time < tie_cfg.total_sim_time ∧
      loop_body tie_cfg tie_draws tie_s2 = .next tie_s3 ∧
      ¬ (tie_s2.clock_time < tie_s3.clock_time) := by
  refine ⟨tie_cfg_valid, tie_draws_pos, tie_reach_2, ?_, tie_body_2, ?_⟩
  · norm_num [tie_s2, tie_cfg]
  · norm_num [tie_s2, tie_s3]

/-- C18, as the code has it: at every state of every run an idle server has
`next_departure = INF`, so a `next_departure` other than `INF` means the
server is busy, and `queue_length > 0` implies the server is busy. -/
theorem idle_server_has_no_departure (cfg : Config) (draws : ℕ → ℚ) (q0 : Queue)
    (hist : List SimState) (r : Bool) (s : SimState)
    (h : Reach cfg draws q0 hist r s) :
    (s.server_busy = false → s.next_departure = INF) ∧
      (s.next_departure ≠ INF → s.server_busy = true) ∧
      (s.queue_length > 0 → s.server_busy = true) := by
  have hs := reach_struct_inv cfg draws q0 hist r s h
  refine ⟨hs.idle_inf, ?_, ?_⟩
  · intro hne
    cases hb : s.server_busy
    · exact absurd (hs.idle_inf hb) hne
    · rfl
  · intro hq
    cases hb : s.server_busy
    · have := hs.idle_empty hb
      omega
    · rfl

/-- C18 at the `busy_cfg` run with one customer waiting: the departure is
scheduled at 5, the line is not empty, and the server is busy. -/
theorem idle_server_has_no_departure_witness :
    Reach busy_cfg busy_draws demo_q0 [busy_s0, busy_s1] true busy_s2 ∧
      (busy_s2.next_departure ≠ INF → busy_s2.server_busy = true) ∧
      (busy_s2.queue_length > 0 → busy_s2.server_busy = true) :=
  ⟨busy_reach_2,
    (idle_server_has_no_departure busy_cfg busy_draws demo_q0 _ true busy_s2
      busy_reach_2).2⟩

/-- C18 fails as stated: in the `sentinel_cfg` run the first customer arrives
at `120852863516672` and is served for `999999999999999879147136483328`; the
departure is scheduled at their sum `10^30`, so the server is busy while
`next_departure` equals the `INF` sentinel. -/
theorem busy_with_sentinel_counterexample :
    sentinel_cfg.valid ∧ (∀ k, 0 < sentinel_draws k) ∧
      exp_rand (sentinel_draws 0) sentinel_cfg.arrival_rate = 120852863516672 ∧
      exp_rand (sentinel_draws 1) sentinel_cfg.service_rate =
        999999999999999879147136483328 ∧
      Reach sentinel_cfg sentinel_draws demo_q0 [sentinel_s0] true sentinel_s1 ∧
      sentinel_s1.server_busy = true ∧ sentinel_s1.next_departure = INF := by
  refine ⟨sentinel_cfg_valid, sentinel_draws_pos, ?_, ?_, sentinel_reach_1, rfl, ?_⟩
  · norm_num [exp_rand, sentinel_draws, sentinel_cfg]
  · norm_num [exp_rand, sentinel_draws, sentinel_cfg]
  · norm_num [sentinel_s1, INF]

/-- C19: for every valid configuration and positive draws, at every state of
the run the timestamps in the waiting line are in non-decreasing order from
head to tail and none is later than the clock, `total_wait_time` is
non-negative, an iteration never decreases `total_wait_time`, and the wait
`next_departure - arrival_time` of the customer at the head is non-negative
whenever the server is busy. -/
theorem waiting_line_is_ordered (cfg : Config) (draws : ℕ → ℚ) (q0 : Queue)
    (hist : List SimState) (r : Bool) (s : SimState)
    (hv : cfg.valid) (hpos : ∀ k, 0 < draws k)
    (h : Reach cfg draws q0 hist r s) :
    List.Pairwise (fun a b => a ≤ b) s.q.contents ∧
      (∀ a ∈ s.q.contents, a ≤ s.clock_time) ∧
      0 ≤ s.total_wait_time ∧
      (∀ s1, (loop_body cfg draws s).state? = some s1 →
        s.total_wait_time ≤ s1.total_wait_time) ∧
      (∀ a q1, dequeue s.q = .ok (a, q1) → s.server_busy = true →
        0 ≤ s.next_departure - a) := by
  have ho := reach_order_inv cfg draws q0 hv hpos hist r s h
  have hs := reach_struct_inv cfg draws q0 hist r s h
  have ht := reach_time_inv cfg draws q0 hv hpos hist r s h
  refine ⟨ho.sorted, ho.le_clock, ho.wait_nonneg, ?_, ?_⟩
  · intro s1 hstep
    exact (order_inv_step cfg draws s s1 hs.wf
      (time_inv_step cfg draws s s1 hv hpos hs.idle_inf ht hstep).2
      hs.idle_inf ho hstep).2
  · intro a q1 hd hb
    have hc := (dequeue_spec s.q q1 a hs.wf hd).2.1
    have ha : a ≤ s.clock_time := ho.le_clock a (by rw [hc]; exact List.mem_cons_self _ _)
    have := ht.busy_departure hb
    linarith

/-- C19 at the `busy_cfg` run with one customer waiting: the one timestamp, 2,
is not later than the clock. -/
theorem waiting_line_is_ordered_witness :
    busy_cfg.valid ∧ (∀ k, 0 < busy_draws k) ∧
      Reach busy_cfg busy_draws demo_q0 [busy_s0, busy_s1] true busy_s2 ∧
      List.Pairwise (fun a b => a ≤ b) busy_s2.q.contents ∧
      (∀ a ∈ busy_s2.q.contents, a ≤ busy_s2.clock_time) ∧
      0 ≤ busy_s2.total_wait_time :=
  have h := waiting_line_is_ordered busy_cfg busy_draws demo_q0 _ true busy_s2
    busy_cfg_valid busy_draws_pos busy_reach_2
  ⟨busy_cfg_valid, busy_draws_pos, busy_reach_2, h.1, h.2.1, h.2.2.1⟩

/-- C20: every queue reached from `init_queue` by `enqueue` and `dequeue` calls
without overflow or underflow has `front < MAX_QUEUE`, `rear < MAX_QUEUE`,
`count ≤ MAX_QUEUE` and `rear = (front + count) mod MAX_QUEUE`; so the cells
read at `front` and written at `rear` are inside the array, and a successful
`enqueue` keeps every value not yet dequeued. -/
theorem reachable_queue_indices (ops : List QueueOp) (q0 q : Queue) (outs : List ℚ)
    (h : run_ops ops (init_queue q0) = .ok (q, outs)) :
    q.front < MAX_QUEUE ∧ q.rear < MAX_QUEUE ∧ q.count ≤ MAX_QUEUE ∧
      q.rear = (q.front + q.count) % MAX_QUEUE ∧
      (∀ v q1, enqueue q v = .ok q1 →
        q1.contents = q.contents ++ [v] ∧
          ∀ i, i < q.count →
            q1.data ((q.front + i) % MAX_QUEUE) = q.data ((q.front + i) % MAX_QUEUE)) := by
  have hwf := run_ops_WF ops (init_queue q0) q outs (init_queue_WF q0) h
  obtain ⟨hf, hc, hr⟩ := hwf
  have hmq : 0 < MAX_QUEUE := by decide
  refine ⟨hf, by rw [hr]; exact Nat.mod_lt _ hmq, hc, hr, ?_⟩
  intro v q1 he
  have hspec := (enqueue_spec q q1 v ⟨hf, hc, hr⟩ he).2.1
  refine ⟨hspec, ?_⟩
  intro i hi
  have hlen : i < q.contents.length := by rw [contents_length]; exact hi
  have hlen1 : i < q1.contents.length := by
    rw [hspec, List.length_append]; omega
  have e1 : q1.contents.get ⟨i, hlen1⟩ = q1.data ((q1.front + i) % MAX_QUEUE) := by
    simp [Queue.contents]
  have e2 : q.contents.get ⟨i, hlen⟩ = q.data ((q.front + i) % MAX_QUEUE) := by
    simp [Queue.contents]
  have hfront : q1.front = q.front := by
    unfold enqueue at he
    by_cases hfull : is_full q = true
    · simp [hfull] at he
    · simp only [hfull, Bool.false_eq_true, if_false, Except.ok.injEq] at he
      rw [← he]
  rw [← e2, ← hfront, ← e1, List.get_of_eq hspec ⟨i, hlen1⟩]
  simp only [List.get_eq_getElem]
  exact List.getElem_append_left hlen

/-- C20 at `demo_ops`: the queue reached has `front = 2`, `rear = 3`,
`count = 1`. -/
theorem reachable_queue_indices_witness :
    run_ops demo_ops (init_queue demo_q0) = .ok (demo_q, [5, 7]) ∧
      demo_q.front < MAX_QUEUE ∧ demo_q.rear < MAX_QUEUE ∧ demo_q.count ≤ MAX_QUEUE ∧
      demo_q.rear = (demo_q.front + demo_q.count) % MAX_QUEUE :=
  have h := reachable_queue_indices demo_ops demo_q0 demo_q [5, 7] rfl
  ⟨rfl, h.1, h.2.1, h.2.2.1, h.2.2.2.1⟩

end QueueSim
